import Mathlib

/-!
# Verification of the Buy-Lead-App CSV import pipeline

A shallow embedding of the CSV bulk-import subsystem of the buyer-leads CRM:

* `CSVParser.parseCSVLine` / `CSVParser.parseCSV`  (backend/src/utils/csvParser.ts)
* `CSVDataCleaner.cleanRowData` and its helpers    (backend/src/validators/csvValidator.ts)
* `CSVRowValidator.validateRow`                    (backend/src/validators/csvValidator.ts)
* the zod `csvRowSchema` / `validateCSVRow`        (validators/buyer.ts)
* `CSVImportService.importBuyersFromCSV`           (services/csvImportService.ts)

Modelling conventions:

* JavaScript strings are modelled as `List Char` (`JStr`), with `chars` turning a
  Lean string literal into its character list.  `String.prototype.toLowerCase` is
  modelled on the ASCII range (the only range exercised by the pipeline's data).
* JavaScript runtime values flowing through a row are modelled by `JVal`
  (string / number / null / undefined / array-of-strings).  Numbers are modelled
  as `ℚ`; `NaN` is modelled by `Option` results where it matters (`parseFloat`).
* A row (JS object) is an association list `Row := List (JStr × JVal)` in key
  insertion order; JS objects cannot hold duplicate keys, and rows produced by
  the parser never do, so theorems about arbitrary rows carry a `Nodup`
  hypothesis on the keys where the distinction could matter.
* Code that can raise a `TypeError` (e.g. calling `.trim()` on a number) is
  modelled in `Except JStr`, the payload standing for the exception message.
-/

set_option autoImplicit false
set_option maxRecDepth 100000

namespace BuyLead

/-- JavaScript string, modelled as its list of characters. -/
abbrev JStr := List Char

/-- Character list of a Lean string literal. -/
def chars (s : String) : JStr := s.data

/-- Whitespace characters recognised by the model of `String.prototype.trim`
(space, tab, newline, carriage return). -/
def isWs (c : Char) : Bool := c = ' ' ∨ c = '\t' ∨ c = '\n' ∨ c = '\r'

/-- Model of `String.prototype.trim`: drop whitespace from both ends. -/
def jsTrim (s : JStr) : JStr :=
  ((s.dropWhile isWs).reverse.dropWhile isWs).reverse

/-- ASCII lower-casing table used to model `String.prototype.toLowerCase`
on the character range the pipeline manipulates. -/
def lowerPairs : List (Char × Char) :=
  [('A','a'),('B','b'),('C','c'),('D','d'),('E','e'),('F','f'),('G','g'),
   ('H','h'),('I','i'),('J','j'),('K','k'),('L','l'),('M','m'),('N','n'),
   ('O','o'),('P','p'),('Q','q'),('R','r'),('S','s'),('T','t'),('U','u'),
   ('V','v'),('W','w'),('X','x'),('Y','y'),('Z','z')]

/-- First value bound to `k` in an association list. -/
def assocLookup {α β : Type} [DecidableEq α] (l : List (α × β)) (k : α) : Option β :=
  match l with
  | [] => none
  | (k', v) :: rest => if k' = k then some v else assocLookup rest k

/-- Lower-case one character (ASCII model of `toLowerCase`). -/
def jsLowerChar (c : Char) : Char :=
  match assocLookup lowerPairs c with
  | some l => l
  | none => c

/-- Model of `String.prototype.toLowerCase` (ASCII range). -/
def jsLower (s : JStr) : JStr := s.map jsLowerChar

/-- `needle` occurs as a contiguous substring of `hay`
(model of `String.prototype.includes`). -/
def containsSub (hay needle : JStr) : Bool :=
  match hay with
  | [] => needle.isEmpty
  | _ :: rest => needle.isPrefixOf hay || containsSub rest needle

/-- Decidable equality for `Except` (not provided by core). -/
instance exceptDecEq {ε α : Type} [DecidableEq ε] [DecidableEq α] :
    DecidableEq (Except ε α) := fun a b =>
  match a, b with
  | .error e, .error f =>
    if h : e = f then isTrue (by rw [h]) else isFalse (by simp [h])
  | .ok x, .ok y =>
    if h : x = y then isTrue (by rw [h]) else isFalse (by simp [h])
  | .error _, .ok _ => isFalse (by simp)
  | .ok _, .error _ => isFalse (by simp)

/-! ## JavaScript runtime values and row objects -/
/-- A JavaScript value as it can appear in a CSV row object along the pipeline:
a string, a number (modelled exactly as a rational), `null`, `undefined`, or an
array of strings (the shape `cleanTags` produces). -/
inductive JVal : Type
  | vStr (s : JStr)
  | vNum (q : ℚ)
  | vNull
  | vUndef
  | vArr (l : List JStr)
  deriving DecidableEq, Repr

open JVal

/-- A row object: association list from key to value in insertion order
(JS objects cannot hold duplicate keys). -/
abbrev Row := List (JStr × JVal)

/-- Property access `row[k]`: first binding, `undefined` when absent. -/
def jget (row : Row) (k : JStr) : JVal :=
  (assocLookup row k).getD vUndef

/-- JS truthiness of a `JVal` (`''`, `0`, `null`, `undefined` are falsy;
note an empty array is truthy). -/
def truthy : JVal → Bool
  | vStr s => ¬ s.isEmpty
  | vNum q => q ≠ 0
  | vNull => false
  | vUndef => false
  | vArr _ => true

/-- Decimal digits of a natural number. -/
def natToChars (n : Nat) : JStr := Nat.toDigits 10 n

/-- Decimal rendering of an integer (JS `String(i)` for integral numbers). -/
def intToChars (i : ℤ) : JStr :=
  if i < 0 then '-' :: natToChars i.natAbs else natToChars i.natAbs

/-- Fractional digits of `q` (`0 ≤ q < 1`) with `fuel` decimal places. -/
def fracDigits (fuel : Nat) (q : ℚ) : JStr :=
  match fuel with
  | 0 => []
  | fuel + 1 =>
    if q = 0 then []
    else
      let q10 := q * 10
      let d := q10.floor.toNat
      (Nat.toDigits 10 d).headD '0' :: fracDigits fuel (q10 - q10.floor)

/-- Model of JS number-to-string conversion.  Exact for integral values (the
only values the pipeline ever prints); non-integral values are rendered with up
to 20 decimal places. -/
def jsNumToString (q : ℚ) : JStr :=
  if q < 0 then '-' :: jsNumToString' (-q) else jsNumToString' q
where
  /-- Rendering of a non-negative rational. -/
  jsNumToString' (q : ℚ) : JStr :=
    if q.den = 1 then natToChars q.num.toNat
    else natToChars q.floor.toNat ++ '.' :: fracDigits 20 (q - q.floor)

/-- Nat value of a list of decimal digit characters. -/
def digitsToNat (l : JStr) : Nat :=
  l.foldl (fun acc c => acc * 10 + (c.toNat - '0'.toNat)) 0

/-- Model of JS `parseFloat`: skip leading whitespace, optional sign, longest
prefix of digits with at most one decimal point; `none` models `NaN`.
(Exponent notation is not modelled; no pipeline input uses it.) -/
def jsParseFloat (s : JStr) : Option ℚ :=
  let s1 := s.dropWhile isWs
  let (neg, s2) : Bool × JStr :=
    match s1 with
    | '-' :: rest => (true, rest)
    | '+' :: rest => (false, rest)
    | _ => (false, s1)
  let intPart := s2.takeWhile Char.isDigit
  let s3 := s2.dropWhile Char.isDigit
  let fracPart : JStr :=
    match s3 with
    | '.' :: rest => rest.takeWhile Char.isDigit
    | _ => []
  if intPart.isEmpty ∧ fracPart.isEmpty then none
  else
    let mag : ℚ :=
      (digitsToNat intPart : ℚ) + (digitsToNat fracPart : ℚ) / ((10 : ℚ) ^ fracPart.length)
    some (if neg then -mag else mag)

/-- String coercion `String(v)` for the values that reach template literals. -/
def jvalToChars : JVal → JStr
  | vStr s => s
  | vNum q => jsNumToString q
  | vNull => chars "null"
  | vUndef => chars "undefined"
  | vArr l => (l.intersperse (chars ",")).flatten

/-! ## EnumMappings (csvValidator.ts)

Each table is the corresponding JS object literal as an ordered list of
`(key, canonical value)` pairs.  `Object.keys` order — which drives the fuzzy
first-match tie-break — is insertion order for string keys, but JS places
integer-like keys (`'0'`…`'4'` in the `bhk` table) first in ascending order, so
`bhkMap` lists them first. -/
def cityMap : List (JStr × JStr) :=
  [(chars "chandigarh", chars "Chandigarh"), (chars "mohali", chars "Mohali"),
   (chars "zirakpur", chars "Zirakpur"), (chars "panchkula", chars "Panchkula"),
   (chars "other", chars "Other"), (chars "chd", chars "Chandigarh"),
   (chars "chandi", chars "Chandigarh"), (chars "pkula", chars "Panchkula"),
   (chars "panchula", chars "Panchkula")]

def propertyTypeMap : List (JStr × JStr) :=
  [(chars "apartment", chars "Apartment"), (chars "villa", chars "Villa"),
   (chars "plot", chars "Plot"), (chars "office", chars "Office"),
   (chars "retail", chars "Retail"), (chars "apt", chars "Apartment"),
   (chars "flat", chars "Apartment"), (chars "house", chars "Villa"),
   (chars "bungalow", chars "Villa"), (chars "shop", chars "Retail"),
   (chars "commercial", chars "Office")]

def bhkMap : List (JStr × JStr) :=
  [(chars "0", chars "Studio"), (chars "1", chars "One"), (chars "2", chars "Two"),
   (chars "3", chars "Three"), (chars "4", chars "Four"),
   (chars "studio", chars "Studio"), (chars "one", chars "One"),
   (chars "two", chars "Two"), (chars "three", chars "Three"),
   (chars "four", chars "Four"), (chars "1bhk", chars "One"),
   (chars "2bhk", chars "Two"), (chars "3bhk", chars "Three"),
   (chars "4bhk", chars "Four")]

def purposeMap : List (JStr × JStr) :=
  [(chars "buy", chars "Buy"), (chars "rent", chars "Rent"),
   (chars "purchase", chars "Buy"), (chars "sale", chars "Buy"),
   (chars "rental", chars "Rent"), (chars "lease", chars "Rent")]

def timelineMap : List (JStr × JStr) :=
  [(chars "zerotothree", chars "ZeroToThree"), (chars "threetosix", chars "ThreeToSix"),
   (chars "morethansix", chars "MoreThanSix"), (chars "exploring", chars "Exploring"),
   (chars "0-3", chars "ZeroToThree"), (chars "3-6", chars "ThreeToSix"),
   (chars "6+", chars "MoreThanSix"), (chars "immediate", chars "ZeroToThree"),
   (chars "asap", chars "ZeroToThree"), (chars "flexible", chars "Exploring"),
   (chars "later", chars "MoreThanSix")]

def sourceMap : List (JStr × JStr) :=
  [(chars "website", chars "Website"), (chars "referral", chars "Referral"),
   (chars "walkin", chars "WalkIn"), (chars "call", chars "Call"),
   (chars "other", chars "Other"), (chars "web", chars "Website"),
   (chars "online", chars "Website"), (chars "reference", chars "Referral"),
   (chars "phone", chars "Call"), (chars "telephone", chars "Call"),
   (chars "walk-in", chars "WalkIn"), (chars "visit", chars "WalkIn")]

def statusMap : List (JStr × JStr) :=
  [(chars "new", chars "New"), (chars "qualified", chars "Qualified"),
   (chars "contacted", chars "Contacted"), (chars "visited", chars "Visited"),
   (chars "negotiation", chars "Negotiation"), (chars "converted", chars "Converted"),
   (chars "dropped", chars "Dropped"), (chars "fresh", chars "New"),
   (chars "lead", chars "New"), (chars "prospect", chars "Qualified"),
   (chars "called", chars "Contacted"), (chars "reached", chars "Contacted"),
   (chars "site-visit", chars "Visited"), (chars "viewing", chars "Visited"),
   (chars "deal", chars "Negotiation"), (chars "bargaining", chars "Negotiation"),
   (chars "closed", chars "Converted"), (chars "won", chars "Converted"),
   (chars "lost", chars "Dropped"), (chars "rejected", chars "Dropped")]

/-- The enum fields of a row, with their mapping tables, in the order
`cleanRowData` iterates them. -/
def enumTables : List (JStr × List (JStr × JStr)) :=
  [(chars "city", cityMap), (chars "propertyType", propertyTypeMap),
   (chars "bhk", bhkMap), (chars "purpose", purposeMap),
   (chars "timeline", timelineMap), (chars "source", sourceMap),
   (chars "status", statusMap)]

def enumTableFor (k : JStr) : Option (List (JStr × JStr)) := assocLookup enumTables k

/-! ## CSVDataCleaner (csvValidator.ts) -/
/-- `CSVDataCleaner.mapEnumValue`: direct alias-table hit on the lower-cased
trimmed value, then a substring-containment fuzzy match in table order
(first match wins); `none` when no match.  Raises (`.error`) when invoked on a
truthy non-string, as `value.toLowerCase()` would. -/
def mapEnumValueJ (mapping : List (JStr × JStr)) (v : JVal) : Except JStr (Option JStr) :=
  if ¬ truthy v then .ok none
  else match v with
    | vStr s =>
      if (jsTrim s).isEmpty then .ok none
      else
        let cleanValue := jsTrim (jsLower s)
        match assocLookup mapping cleanValue with
        | some m => .ok (some m)
        | none =>
          match mapping.find? (fun p => containsSub cleanValue p.1 || containsSub p.1 cleanValue) with
          | some p => .ok (some p.2)
          | none => .ok none
    | _ => .error (chars "value.toLowerCase is not a function")

/-- String core of `CSVDataCleaner.cleanPhoneNumber`: keep digits; drop a
leading `"91"` country code when the digit string is exactly 12 long. -/
def cleanPhoneCore (s : JStr) : JStr :=
  let cleaned := s.filter Char.isDigit
  if (chars "91").isPrefixOf cleaned ∧ cleaned.length = 12
  then cleaned.drop 2 else cleaned

/-- `CSVDataCleaner.cleanPhoneNumber` on a row value. -/
def cleanPhoneNumberJ (v : JVal) : Except JStr JVal :=
  if ¬ truthy v then .ok (vStr [])
  else match v with
    | vStr s => .ok (vStr (cleanPhoneCore s))
    | _ => .error (chars "phone.replace is not a function")

/-- `CSVDataCleaner.cleanEmail`: lower-case then trim. -/
def cleanEmailJ (v : JVal) : Except JStr JVal :=
  if ¬ truthy v then .ok (vStr [])
  else match v with
    | vStr s => .ok (vStr (jsTrim (jsLower s)))
    | _ => .error (chars "email.toLowerCase is not a function")

/-- Remove every `l`/`L` (model of `replace(/l/gi, '')`). -/
def removeLCI (l : JStr) : JStr := l.filter (fun c => ¬ (c = 'l' ∨ c = 'L'))

/-- Remove every case-insensitive `cr` (model of `replace(/cr/gi, '')`). -/
def removeCrCI : JStr → JStr
  | c :: r :: rest =>
    if (c = 'c' ∨ c = 'C') ∧ (r = 'r' ∨ r = 'R') then removeCrCI rest
    else c :: removeCrCI (r :: rest)
  | l => l

/-- `CSVDataCleaner.cleanBudget`: strip `₹`/`,`/`$`/whitespace, interpret a
case-insensitive `l` suffix as lakhs (`×100000`) and `cr` as crores
(`×10000000`), else parse as a plain decimal; unparseable → `undefined`.
Raises when invoked on a truthy non-string (`budget.trim()`). -/
def cleanBudgetJ (v : JVal) : Except JStr JVal :=
  if ¬ truthy v then .ok vUndef
  else match v with
    | vStr s =>
      if (jsTrim s).isEmpty then .ok vUndef
      else
        let cleaned := s.filter (fun c => ¬ (c = '₹' ∨ c = ',' ∨ c = '$' ∨ isWs c))
        if containsSub (jsLower cleaned) (chars "l") then
          match jsParseFloat (removeLCI cleaned) with
          | none => .ok vUndef
          | some q => .ok (vNum (q * 100000))
        else if containsSub (jsLower cleaned) (chars "cr") then
          match jsParseFloat (removeCrCI cleaned) with
          | none => .ok vUndef
          | some q => .ok (vNum (q * 10000000))
        else
          match jsParseFloat cleaned with
          | none => .ok vUndef
          | some q => .ok (vNum q)
    | _ => .error (chars "budget.trim is not a function")

/-- Scan a JSON string literal after its opening quote; returns the decoded
content and the remainder after the closing quote (escapes `\"`, `\\`, `\n`). -/
def jsonStrLit : JStr → Option (JStr × JStr)
  | [] => none
  | '\\' :: c :: rest =>
    match jsonStrLit rest with
    | some (s, r) => some ((if c = 'n' then '\n' else c) :: s, r)
    | none => none
  | '"' :: rest => some ([], rest)
  | c :: rest =>
    match jsonStrLit rest with
    | some (s, r) => some (c :: s, r)
    | none => none

/-- Elements of a JSON array of string literals, given the text after `[`. -/
def jsonArrElems : Nat → JStr → Option (List JStr)
  | 0, _ => none
  | fuel + 1, l =>
    match l.dropWhile isWs with
    | '"' :: rest =>
      match jsonStrLit rest with
      | some (s, r) =>
        match r.dropWhile isWs with
        | ',' :: r2 =>
          match jsonArrElems fuel r2 with
          | some tail => some (s :: tail)
          | none => none
        | ']' :: r2 => if (r2.dropWhile isWs).isEmpty then some [s] else none
        | _ => none
      | none => none
    | _ => none

/-- Model of `JSON.parse` restricted to arrays of string literals — the only
successful-parse shape `cleanTags` consumes; every other input takes the
comma-split fallback, matching either a parse error or a non-array result. -/
def jsonParseStrArray (s : JStr) : Option (List JStr) :=
  match s.dropWhile isWs with
  | '[' :: rest =>
    match rest.dropWhile isWs with
    | ']' :: r2 => if (r2.dropWhile isWs).isEmpty then some [] else none
    | _ => jsonArrElems s.length rest
  | _ => none

/-- `CSVDataCleaner.cleanTags`: `''`/`'[]'` → empty array; else JSON-array
parse, falling back to comma-splitting; filters empty / `[]` / `null` /
`undefined` tokens.  Raises on a truthy non-string (`tags.trim()`). -/
def cleanTagsJ (v : JVal) : Except JStr JVal :=
  if ¬ truthy v then .ok (vArr [])
  else match v with
    | vStr s =>
      if jsTrim s = [] ∨ jsTrim s = chars "[]" then .ok (vArr [])
      else match jsonParseStrArray s with
        | some elems => .ok (vArr ((elems.map jsTrim).filter (fun t => ¬ t.isEmpty)))
        | none =>
          .ok (vArr (((s.splitOn ',').map jsTrim).filter
            (fun t => ¬ t.isEmpty ∧ t ≠ chars "[]" ∧ t ≠ chars "null" ∧ t ≠ chars "undefined")))
    | _ => .error (chars "tags.trim is not a function")

/-- The initial pass of `cleanRowData`: trim every string-valued field. -/
def trimStep : JVal → JVal
  | vStr s => vStr (jsTrim s)
  | v => v

/-- Per-key value pipeline of `cleanRowData` before the final empty-string
pass: trim, then the phone / email / budget / tags cleaners and the enum
mapping, each guarded by the key it targets and JS truthiness (exactly the
`if (cleaned.x)` guards of the source; because those guards only fire on
existing keys, running the steps per entry is equivalent to the source's
step-by-step sweeps — the only cross-field read, `propertyType` in the final
pass, is handled in `cleanRowDataJ`). -/
def cleanEntryPre (k : JStr) (v0 : JVal) : Except JStr JVal := do
  let v := trimStep v0
  let v ← if k = chars "phone" ∧ truthy v then cleanPhoneNumberJ v else pure v
  let v ← if k = chars "email" ∧ truthy v then do
      let e ← cleanEmailJ v
      pure (if e = vStr [] then vNull else e)
    else pure v
  let v ← if (k = chars "budgetMin" ∨ k = chars "budgetMax") ∧ truthy v then cleanBudgetJ v
    else pure v
  let v ← if k = chars "tags" ∧ truthy v then cleanTagsJ v else pure v
  let v ← match enumTableFor k with
    | some table =>
      if truthy v then do
        let m ← mapEnumValueJ table v
        pure (match m with | some s => vStr s | none => v)
      else pure v
    | none => pure v
  pure v

/-- The final empty-string pass of `cleanRowData` on one entry, given the
row's (already cleaned) `propertyType` value. -/
def emptyPass (pt : JVal) (k : JStr) (v : JVal) : JVal :=
  if v = vStr [] then
    if k = chars "email" ∨ k = chars "notes" ∨ k = chars "status" then vNull
    else if k = chars "budgetMin" ∨ k = chars "budgetMax" then vUndef
    else if k = chars "bhk" then
      if pt = vStr (chars "Plot") ∨ pt = vStr (chars "Office") ∨ pt = vStr (chars "Retail")
      then vNull else vStr []
    else v
  else v

/-- The per-entry passes of `cleanRowData` applied across the row. -/
def cleanEntries (row : Row) : Except JStr Row :=
  row.mapM (fun kv => do
    let v ← cleanEntryPre kv.1 kv.2
    pure (kv.1, v))

/-- `CSVDataCleaner.cleanRowData`: trim all string fields, clean
phone/email/budgets/tags, map enum fields through their alias tables, then
normalise empty strings (`email`/`notes`/`status` → null, budgets → undefined,
`bhk` → null only for Plot/Office/Retail). -/
def cleanRowDataJ (row : Row) : Except JStr Row := do
  let pre ← cleanEntries row
  let pt := jget pre (chars "propertyType")
  pure (pre.map (fun kv => (kv.1, emptyPass pt kv.1 kv.2)))

/-! ## CSVRowValidator (csvValidator.ts) -/
/-- Result record of `CSVRowValidator.validateRow`. -/
structure VResult where
  isValid : Bool
  errors : List JStr
  warnings : List JStr
  deriving DecidableEq, Repr

/-- Strict full-string numeric parse (model of JS `Number` on a trimmed
non-empty string; hex/exponent forms are not modelled). -/
def jsStrictParse (s : JStr) : Option ℚ :=
  let (neg, s2) : Bool × JStr :=
    match s with
    | '-' :: r => (true, r)
    | '+' :: r => (false, r)
    | _ => (false, s)
  let intPart := s2.takeWhile Char.isDigit
  let s3 := s2.dropWhile Char.isDigit
  let (fracPart, s4) : JStr × JStr :=
    match s3 with
    | '.' :: r => (r.takeWhile Char.isDigit, r.dropWhile Char.isDigit)
    | _ => ([], s3)
  if (intPart.isEmpty ∧ fracPart.isEmpty) ∨ ¬ s4.isEmpty then none
  else
    let mag : ℚ :=
      (digitsToNat intPart : ℚ) + (digitsToNat fracPart : ℚ) / ((10 : ℚ) ^ fracPart.length)
    some (if neg then -mag else mag)

/-- JS `ToNumber` coercion (`none` models `NaN`). -/
def jsToNumber : JVal → Option ℚ
  | vNum q => some q
  | vNull => some 0
  | vUndef => none
  | vStr s => if (jsTrim s).isEmpty then some 0 else jsStrictParse (jsTrim s)
  | vArr l =>
    let s := (l.intersperse (chars ",")).flatten
    if (jsTrim s).isEmpty then some 0 else jsStrictParse (jsTrim s)

/-- Lexicographic character-code comparison (JS string `<`). -/
def strLt : JStr → JStr → Bool
  | [], [] => false
  | [], _ :: _ => true
  | _ :: _, [] => false
  | a :: as_, b :: bs =>
    if a.toNat < b.toNat then true
    else if b.toNat < a.toNat then false
    else strLt as_ bs

/-- JS `<` on row values: string/string compares lexicographically, everything
else through `ToNumber` (`NaN` makes the comparison false). -/
def jsLt (x y : JVal) : Bool :=
  match x, y with
  | vStr a, vStr b => strLt a b
  | _, _ =>
    match jsToNumber x, jsToNumber y with
    | some a, some b => a < b
    | _, _ => false

/-- `.length` of a JS value (`none` = `undefined`, as for numbers/null). -/
def jsLen : JVal → Option Nat
  | vStr s => some s.length
  | vArr l => some l.length
  | _ => none

/-- The regex `/^[^\s@]+@[^\s@]+\.[^\s@]+$/` of `validateRow`. -/
def emailOk (s : JStr) : Bool :=
  match s.splitOn '@' with
  | [a, b] =>
    ¬ a.isEmpty ∧ ¬ b.isEmpty ∧
    a.all (fun c => ¬ isWs c) ∧ b.all (fun c => ¬ isWs c) ∧
    ((b.drop 1).dropLast.contains '.')
  | _ => false

/-- Required fields checked by `validateRow`. -/
def requiredFields : List JStr :=
  [chars "fullName", chars "phone", chars "city", chars "propertyType",
   chars "purpose", chars "timeline", chars "source"]

/-- `!row[field] || (typeof row[field] === 'string' && row[field].trim() === '')`. -/
def reqMissing (row : Row) (f : JStr) : Bool :=
  match jget row f with
  | vStr s => s.isEmpty || (jsTrim s).isEmpty
  | v => ¬ truthy v

/-- Canonical values of the `city` enum. -/
def cityValues : List JStr :=
  [chars "Chandigarh", chars "Mohali", chars "Zirakpur", chars "Panchkula", chars "Other"]

/-- Canonical values of the `propertyType` enum. -/
def propertyTypeValues : List JStr :=
  [chars "Apartment", chars "Villa", chars "Plot", chars "Office", chars "Retail"]

/-- Canonical values of the `bhk` enum. -/
def bhkValues : List JStr :=
  [chars "Studio", chars "One", chars "Two", chars "Three", chars "Four"]

/-- Canonical values of the `purpose` enum. -/
def purposeValues : List JStr := [chars "Buy", chars "Rent"]

/-- Canonical values of the `timeline` enum. -/
def timelineValues : List JStr :=
  [chars "ZeroToThree", chars "ThreeToSix", chars "MoreThanSix", chars "Exploring"]

/-- Canonical values of the `source` enum. -/
def sourceValues : List JStr :=
  [chars "Website", chars "Referral", chars "WalkIn", chars "Call", chars "Other"]

/-- Canonical values of the `status` enum. -/
def statusValues : List JStr :=
  [chars "New", chars "Qualified", chars "Contacted", chars "Visited",
   chars "Negotiation", chars "Converted", chars "Dropped"]

/-- The `enumValidations` table of `validateRow`: field and allowed values. -/
def enumChecks : List (JStr × List JStr) :=
  [(chars "city", cityValues),
   (chars "propertyType", propertyTypeValues),
   (chars "bhk", bhkValues),
   (chars "purpose", purposeValues),
   (chars "timeline", timelineValues),
   (chars "source", sourceValues),
   (chars "status", statusValues)]

/-- `valid.includes(row[field])` (strict equality: only strings can match). -/
def enumIncludes (valid : List JStr) (v : JVal) : Bool :=
  match v with
  | vStr s => valid.contains s
  | _ => false

/-- `valid.join(', ')`. -/
def joinComma (l : List JStr) : JStr := (l.intersperse (chars ", ")).flatten

/-- One step of the enum-validation loop of `validateRow` for field `p.1` with
allowed values `p.2`: a truthy value outside the allowed list yields a
"was mapped" warning when the alias table can map it, and a hard error listing
the allowed values otherwise. -/
def enumFieldCheck (row : Row) (p : JStr × List JStr) :
    Except JStr (List JStr × List JStr) :=
  if truthy (jget row p.1) ∧ ¬ enumIncludes p.2 (jget row p.1) then do
    let sugg ← mapEnumValueJ ((enumTableFor p.1).getD []) (jget row p.1)
    match sugg with
    | some s =>
      pure (([] : List JStr),
        [p.1 ++ chars " '" ++ jvalToChars (jget row p.1)
          ++ chars "' was mapped to '" ++ s ++ chars "'"])
    | none =>
      pure ([p.1 ++ chars " must be one of: " ++ joinComma p.2
              ++ chars " (provided: " ++ jvalToChars (jget row p.1) ++ chars ")"],
            ([] : List JStr))
  else pure ([], [])

/-- The enum-validation loop of `validateRow`: the per-field checks in field
order, with errors and warnings concatenated. -/
def enumSegment (row : Row) : List (JStr × List JStr) → Except JStr (List JStr × List JStr)
  | [] => .ok ([], [])
  | p :: rest => do
    let (e0, w0) ← enumFieldCheck row p
    let (es, ws) ← enumSegment row rest
    pure (e0 ++ es, w0 ++ ws)

/-- The required-field loop of `validateRow`: `"<field> is required"` for
every required field that is falsy or a whitespace-only string. -/
def reqSegment (row : Row) : List JStr :=
  requiredFields.filterMap
    (fun f => if reqMissing row f then some (f ++ chars " is required") else none)

/-- The phone check of `validateRow` (raises on a truthy non-string phone,
as `cleanPhoneNumber`'s `phone.replace` would). -/
def phoneSegment (row : Row) : Except JStr (List JStr) :=
  if truthy (jget row (chars "phone")) then
    match jget row (chars "phone") with
    | vStr s =>
      let cp := cleanPhoneCore s
      pure (if cp.length < 10 ∨ cp.length > 15 then
        [chars "phone must be 10-15 digits (provided: " ++ cp ++ chars ")"] else [])
    | _ => .error (chars "phone.replace is not a function")
  else pure []

/-- The email check of `validateRow`. -/
def emailSegment (row : Row) : List JStr :=
  if truthy (jget row (chars "email")) then
    if ¬ emailOk (jvalToChars (jget row (chars "email"))) then
      [chars "email format is invalid (provided: "
        ++ jvalToChars (jget row (chars "email")) ++ chars ")"]
    else []
  else []

/-- The BHK business rule of `validateRow`: Apartment/Villa rows need a bhk
(error); Plot/Office/Retail rows with a truthy bhk get a warning and
`row.bhk = null` (the auto-fix).  Returns `(errors, warnings, row after)`. -/
def bhkCheck (row : Row) : List JStr × List JStr × Row :=
  let pt := jget row (chars "propertyType")
  let bhk := jget row (chars "bhk")
  if pt = vStr (chars "Apartment") ∨ pt = vStr (chars "Villa") then
    (if ¬ truthy bhk ∨ bhk = vNull then
      ([chars "bhk is required for " ++ jvalToChars pt ++ chars " properties"],
       ([] : List JStr), row)
     else ([], [], row))
  else if pt = vStr (chars "Plot") ∨ pt = vStr (chars "Office") ∨ pt = vStr (chars "Retail") then
    (if truthy bhk ∧ bhk ≠ vNull then
      (([] : List JStr),
       [chars "bhk should be empty for " ++ jvalToChars pt
         ++ chars " properties, but '" ++ jvalToChars bhk ++ chars "' was provided"],
       row.map (fun kv => if kv.1 = chars "bhk" then (kv.1, vNull) else kv))
     else ([], [], row))
  else ([], [], row)

/-- The budget cross-check of `validateRow` (reads the row after the bhk
auto-fix, which never touches the budget fields). -/
def budgetSegment (row2 : Row) : List JStr :=
  if truthy (jget row2 (chars "budgetMin")) ∧ truthy (jget row2 (chars "budgetMax")) then
    if jsLt (jget row2 (chars "budgetMax")) (jget row2 (chars "budgetMin")) then
      [chars "budgetMax (" ++ jvalToChars (jget row2 (chars "budgetMax"))
        ++ chars ") must be greater than or equal to budgetMin ("
        ++ jvalToChars (jget row2 (chars "budgetMin")) ++ chars ")"]
    else []
  else []

/-- The notes length check of `validateRow`. -/
def notesSegment (row2 : Row) : List JStr :=
  if truthy (jget row2 (chars "notes")) then
    match jsLen (jget row2 (chars "notes")) with
    | some n => if n > 1000 then
        [chars "notes must be less than 1000 characters (provided: "
          ++ natToChars n ++ chars ")"] else []
    | none => []
  else []

/-- The fullName length check of `validateRow`. -/
def fullNameSegment (row2 : Row) : List JStr :=
  if truthy (jget row2 (chars "fullName")) then
    match jsLen (jget row2 (chars "fullName")) with
    | some n => if n < 2 ∨ n > 80 then
        [chars "fullName must be between 2 and 80 characters (provided: "
          ++ natToChars n ++ chars ")"] else []
    | none => []
  else []

/-- `CSVRowValidator.validateRow`.  Returns the `{isValid, errors, warnings}`
record together with the row as it stands after the call — the BHK auto-fix
(`row.bhk = null` for Plot/Office/Retail rows with a truthy bhk) mutates the
input object, which the model captures by returning the updated row.
Raises (`.error`) where the source would throw a `TypeError` (phone or enum
checks applied to truthy non-string values).  The checks run in source order:
required fields, phone, email, enum fields, the BHK rule, budget, notes,
fullName; the error and warning lists are their concatenated pushes. -/
def validateRowJ (row : Row) : Except JStr (VResult × Row) := do
  let e2 ← phoneSegment row
  let (e4, w4) ← enumSegment row enumChecks
  let t := bhkCheck row
  let row2 := t.2.2
  let errors := reqSegment row ++ e2 ++ emailSegment row ++ e4 ++ t.1
    ++ budgetSegment row2 ++ notesSegment row2 ++ fullNameSegment row2
  pure (⟨errors.isEmpty, errors, w4 ++ t.2.1⟩, row2)

/-! ## The zod `csvRowSchema` / `validateCSVRow` (validators/buyer.ts)

`validateCSVRow` parses the row with `csvRowSchema` and renders each issue as
`path.join('.') + ': ' + message`.  zod object parsing first checks every
field of the shape in declaration order; when any field fails, the refinements
do not run (the parse is aborted).  When all fields pass, the two chained
`.refine`s run in order (a refinement failure is non-fatal, so the second one
runs even if the first fails). -/
/-- zod's name for the received type in `invalid_type` messages. -/
def zodRecName : JVal → JStr
  | vStr _ => chars "string"
  | vNum _ => chars "number"
  | vNull => chars "null"
  | vUndef => chars "undefined"
  | vArr _ => chars "array"

/-- zod enum-values join: `'A' | 'B'`. -/
def zodJoinValues (l : List JStr) : JStr :=
  ((l.map (fun v => '\'' :: v ++ ['\''])).intersperse (chars " | ")).flatten

/-- Issues of a required `z.enum(values)` field. -/
def zodEnumIssues (f : JStr) (values : List JStr) (v : JVal) : List JStr :=
  match v with
  | vUndef => [f ++ chars ": Required"]
  | vStr s =>
    if values.contains s then []
    else [f ++ chars ": Invalid enum value. Expected " ++ zodJoinValues values
          ++ chars ", received '" ++ s ++ chars "'"]
  | v => [f ++ chars ": Expected " ++ zodJoinValues values
          ++ chars ", received " ++ zodRecName v]

/-- Issues of `fullName: z.string().min(2).max(80)`. -/
def zodFullNameIssues (v : JVal) : List JStr :=
  match v with
  | vUndef => [chars "fullName: Required"]
  | vStr s =>
    if s.length < 2 then [chars "fullName: String must contain at least 2 character(s)"]
    else if s.length > 80 then [chars "fullName: String must contain at most 80 character(s)"]
    else []
  | v => [chars "fullName: Expected string, received " ++ zodRecName v]

/-- Issues of `phone: z.string().transform(strip).refine(10 ≤ len ≤ 15)`. -/
def zodPhoneIssues (v : JVal) : List JStr :=
  match v with
  | vUndef => [chars "phone: Required"]
  | vStr s =>
    let digits := s.filter Char.isDigit
    if digits.length < 10 ∨ digits.length > 15 then
      [chars "phone: Phone number must be 10-15 digits"]
    else []
  | v => [chars "phone: Expected string, received " ++ zodRecName v]

/-- Issues of `email: z.string().email().optional().or(z.literal(''))`
(union failure renders as `Invalid input`).  zod's email regex is modelled by
`emailOk`. -/
def zodEmailIssues (v : JVal) : List JStr :=
  match v with
  | vUndef => []
  | vStr s => if s.isEmpty ∨ emailOk s then [] else [chars "email: Invalid input"]
  | _ => [chars "email: Invalid input"]

/-- Issues of `bhk: BHKEnum.optional().or(z.literal('').transform(() => null)).or(z.null())`. -/
def zodBhkIssues (v : JVal) : List JStr :=
  match v with
  | vUndef => []
  | vNull => []
  | vStr s => if s.isEmpty ∨ bhkValues.contains s then [] else [chars "bhk: Invalid input"]
  | _ => [chars "bhk: Invalid input"]

/-- Issues of `z.coerce.number().int().min(0).optional().or(z.literal(''))`
for a budget field. -/
def zodBudgetIssues (f : JStr) (v : JVal) : List JStr :=
  match v with
  | vUndef => []
  | v =>
    match jsToNumber v with
    | some q => if q.den = 1 ∧ 0 ≤ q then [] else
        (if v = vStr [] then [] else [f ++ chars ": Invalid input"])
    | none => if v = vStr [] then [] else [f ++ chars ": Invalid input"]

/-- Issues of `notes: z.string().max(1000).optional().or(z.literal(''))`. -/
def zodNotesIssues (v : JVal) : List JStr :=
  match v with
  | vUndef => []
  | vStr s => if s.length ≤ 1000 then [] else [chars "notes: Invalid input"]
  | _ => [chars "notes: Invalid input"]

/-- Issues of `tags: z.array(z.string()).optional().or(z.literal(''))`. -/
def zodTagsIssues (v : JVal) : List JStr :=
  match v with
  | vUndef => []
  | vArr _ => []
  | vStr s => if s.isEmpty then [] else [chars "tags: Invalid input"]
  | _ => [chars "tags: Invalid input"]

/-- Issues of `status: StatusEnum.optional().or(z.literal(''))`. -/
def zodStatusIssues (v : JVal) : List JStr :=
  match v with
  | vUndef => []
  | vStr s => if s.isEmpty ∨ statusValues.contains s then [] else [chars "status: Invalid input"]
  | _ => [chars "status: Invalid input"]

/-- The parsed `bhk` value (the `''` literal is transformed to `null`). -/
def zodParsedBhk (v : JVal) : JVal :=
  match v with
  | vStr [] => vNull
  | v => v

/-- The parsed value of a budget field (after `z.coerce.number()`). -/
def zodParsedBudget (v : JVal) : JVal :=
  match v with
  | vUndef => vUndef
  | v => match jsToNumber v with
    | some q => vNum q
    | none => v

/-- `validateCSVRow` (validators/buyer.ts): parse with `csvRowSchema`; returns
`isValid` and the issue strings `path: message`. -/
def validateCSVRowJ (row : Row) : Bool × List JStr :=
  let fieldIssues :=
    zodFullNameIssues (jget row (chars "fullName"))
    ++ zodEmailIssues (jget row (chars "email"))
    ++ zodPhoneIssues (jget row (chars "phone"))
    ++ zodEnumIssues (chars "city") cityValues (jget row (chars "city"))
    ++ zodEnumIssues (chars "propertyType") propertyTypeValues (jget row (chars "propertyType"))
    ++ zodBhkIssues (jget row (chars "bhk"))
    ++ zodEnumIssues (chars "purpose") purposeValues (jget row (chars "purpose"))
    ++ zodBudgetIssues (chars "budgetMin") (jget row (chars "budgetMin"))
    ++ zodBudgetIssues (chars "budgetMax") (jget row (chars "budgetMax"))
    ++ zodEnumIssues (chars "timeline") timelineValues (jget row (chars "timeline"))
    ++ zodEnumIssues (chars "source") sourceValues (jget row (chars "source"))
    ++ zodNotesIssues (jget row (chars "notes"))
    ++ zodTagsIssues (jget row (chars "tags"))
    ++ zodStatusIssues (jget row (chars "status"))
  if ¬ fieldIssues.isEmpty then (false, fieldIssues)
  else
    let pt := jget row (chars "propertyType")
    let bhkP := zodParsedBhk (jget row (chars "bhk"))
    let bminP := zodParsedBudget (jget row (chars "budgetMin"))
    let bmaxP := zodParsedBudget (jget row (chars "budgetMax"))
    let iss1 :=
      if (pt = vStr (chars "Apartment") ∨ pt = vStr (chars "Villa"))
          ∧ (bhkP = vUndef ∨ bhkP = vNull) then
        [chars "bhk: BHK is required for Apartment and Villa property types"]
      else []
    let iss2 :=
      if truthy bminP ∧ truthy bmaxP ∧ jsLt bmaxP bminP then
        [chars "budgetMax: Budget max must be greater than or equal to budget min"]
      else []
    let errors := iss1 ++ iss2
    (errors.isEmpty, errors)

/-! ## CSVParser (backend/src/utils/csvParser.ts) -/
/-- The quote-aware tokenizer loop of `CSVParser.parseCSVLine`: left-to-right
scan with the current token, the fields flushed so far, and the in-quotes
flag.  A `""` inside quotes is an escaped literal quote; an unquoted comma
flushes the trimmed current token; the final token is flushed at end of line. -/
def parseLineAux : JStr → JStr → List JStr → Bool → List JStr
  | [], current, acc, _ => acc ++ [jsTrim current]
  | '"' :: '"' :: rest2, current, acc, true => parseLineAux rest2 (current ++ ['"']) acc true
  | '"' :: rest, current, acc, true => parseLineAux rest current acc false
  | '"' :: rest, current, acc, false => parseLineAux rest current acc true
  | c :: rest, current, acc, inQuotes =>
    if c = ',' ∧ ¬ inQuotes then parseLineAux rest [] (acc ++ [jsTrim current]) false
    else parseLineAux rest (current ++ [c]) acc inQuotes

/-- `CSVParser.parseCSVLine`. -/
def parseCSVLine (line : JStr) : List JStr := parseLineAux line [] [] false

/-- The non-blank lines of the trimmed content
(`content.trim().split('\n').filter(line => line.trim())`). -/
def csvLines (content : JStr) : List JStr :=
  ((jsTrim content).splitOn '\n').filter (fun l => ¬ (jsTrim l).isEmpty)

/-- `CSVParser.validateCSVFormat`; `some msg` is the `isValid: false` case. -/
def validateCSVFormat (content : JStr) : Option JStr :=
  if (jsTrim content).isEmpty then some (chars "CSV file is empty")
  else
    let lines := csvLines content
    if lines.length < 2 then
      some (chars "CSV must have at least a header row and one data row")
    else
      let firstLine := jsTrim (lines.headD [])
      if ¬ firstLine.contains ',' then some (chars "CSV must be comma-separated")
      else
        let headerColumns := (parseCSVLine firstLine).length
        let inconsistent := ((lines.drop 1).take 5).filter
          (fun l => (parseCSVLine l).length ≠ headerColumns)
        if ¬ inconsistent.isEmpty then
          some (chars "Column count mismatch detected. Header has "
            ++ natToChars headerColumns
            ++ chars " columns, but some rows have different counts. This often indicates missing values or trailing commas.")
        else none

/-- A parser diagnostic (`CSVParseResult.errors` entry). -/
structure ParseErr where
  row : Nat
  message : JStr
  rawData : Option JStr
  deriving DecidableEq, Repr

/-- Result of `CSVParser.parseCSV`. -/
structure CSVParseResult where
  data : List Row
  errors : List ParseErr
  deriving DecidableEq, Repr

/-- Object assignment `row[k] = v`: overwrite the existing binding in place,
else append a new one. -/
def jset (row : Row) (k : JStr) (v : JVal) : Row :=
  if (assocLookup row k).isSome then
    row.map (fun kv => if kv.1 = k then (k, v) else kv)
  else row ++ [(k, v)]

/-- Zip header names with (fixed-up) values:
`row[header] = (values[index] || '').trim()`. -/
def buildRow (headers : List JStr) (values : List JStr) : Row :=
  headers.enum.foldl
    (fun acc (p : Nat × JStr) => jset acc p.2 (vStr (jsTrim (values.getD p.1 []))))
    []

/-- Column-count auto-fix of one data line: returns the fixed value list and
the diagnostic, if any.  The diagnostic messages quote `values.length` as the
source reads it — after the fix-up, i.e. always the header's column count. -/
def fixColumns (expected : Nat) (rowNum : Nat) (line : JStr) (values : List JStr) :
    List JStr × Option ParseErr :=
  if values.length ≠ expected then
    if values.length = expected - 1 then
      (values ++ [chars "New"],
       some ⟨rowNum, chars "Row had " ++ natToChars (values.length + 1)
         ++ chars " columns, expected " ++ natToChars expected
         ++ chars ". Added default status 'New'.", some line⟩)
    else if values.length > expected then
      (values.take expected,
       some ⟨rowNum, chars "Row had " ++ natToChars expected
         ++ chars " columns, expected " ++ natToChars expected
         ++ chars ". Extra columns removed.", some line⟩)
    else
      (values ++ List.replicate (expected - values.length) [],
       some ⟨rowNum, chars "Row had " ++ natToChars expected
         ++ chars " columns, expected " ++ natToChars expected
         ++ chars ". Missing columns filled with empty values.", some line⟩)
  else (values, none)

/-- `CSVParser.parseCSV`: format validation, then per data line the tokenizer,
the three-way column-count auto-fix, and the header-keyed row object.  Data
row `i` (0-based) is reported as row `i+2`.  (The source's try/catch around
the loop body is dead: no step of it can throw.) -/
def parseCSV (content : JStr) : CSVParseResult :=
  match validateCSVFormat content with
  | some errMsg => ⟨[], [⟨0, errMsg, none⟩]⟩
  | none =>
    let lines := csvLines content
    let headers := (parseCSVLine (lines.headD [])).map jsTrim
    let expected := headers.length
    let processed := (lines.drop 1).enum.map (fun (p : Nat × JStr) =>
      let line := jsTrim p.2
      let (values2, errOpt) := fixColumns expected (p.1 + 2) line (parseCSVLine line)
      (buildRow headers values2, errOpt))
    ⟨processed.map Prod.fst, processed.filterMap Prod.snd⟩

/-- `CSVParser.validateRequiredHeaders`: every required header is a key of the
first row; with zero rows, invalid with all headers missing. -/
def validateRequiredHeaders (data : List Row) (required : List JStr) : Bool × List JStr :=
  if data.isEmpty then (false, required)
  else
    let avail := (data.headD []).map Prod.fst
    let missing := required.filter (fun h => ¬ avail.contains h)
    (missing.isEmpty, missing)

/-! ## CSVImportService (services/csvImportService.ts) -/
/-- An uploaded file as the service sees it (`Express.Multer.File`):
name, MIME type, byte size and its UTF-8 decoded content. -/
structure JFile where
  originalname : JStr
  mimetype : JStr
  size : Nat
  content : JStr
  deriving DecidableEq, Repr

/-- An `ImportResult.errors` entry; `data` carries either a raw line (parser
diagnostics) or the raw row object (validation errors). -/
structure RowError where
  row : Nat
  errors : List JStr
  data : Option (JStr ⊕ Row)
  deriving DecidableEq, Repr

/-- The aggregate `ImportResult`. -/
structure ImportResult where
  success : Bool
  totalRows : Nat
  successfulImports : Nat
  failedImports : Nat
  errors : List RowError
  warnings : List JStr
  deriving DecidableEq, Repr

/-- `CSVImportService.REQUIRED_HEADERS`. -/
def requiredHeaders : List JStr :=
  [chars "fullName", chars "phone", chars "city", chars "propertyType",
   chars "purpose", chars "timeline", chars "source"]

/-- `CSVImportService.validateFile`; `some msg` is the invalid case.
Checks, in order: size ≤ 5MB, CSV MIME type or `.csv` extension, non-empty. -/
def validateFile (file : JFile) : Option JStr :=
  if file.size > 5 * 1024 * 1024 then
    some (chars "File size (" ++ natToChars ((2 * file.size + 1024 * 1024) / (2 * 1024 * 1024))
      ++ chars "MB) exceeds maximum allowed size (5MB)")
  else
    let mimeOk := [chars "text/csv", chars "application/csv", chars "text/plain"].contains
      file.mimetype
    let extOk := (chars ".csv").isSuffixOf (jsLower file.originalname)
    if ¬ mimeOk ∧ ¬ extOk then
      some (chars "Invalid file type. Expected CSV file, got " ++ file.mimetype)
    else if file.size = 0 then some (chars "File is empty")
    else none

/-- JSON escaping for `JSON.stringify` of a string. -/
def jsonEscape (s : JStr) : JStr :=
  s.flatMap (fun c =>
    if c = '"' then ['\\', '"']
    else if c = '\\' then ['\\', '\\']
    else if c = '\n' then ['\\', 'n']
    else [c])

/-- `JSON.stringify` of an array of strings. -/
def jsonStringify (l : List JStr) : JStr :=
  '[' :: ((l.map (fun s => '"' :: jsonEscape s ++ ['"'])).intersperse (chars ",")).flatten
    ++ [']']

/-- Staging of a valid row for insertion:
`{ ...cleanedRow, ownerId, tags: JSON.stringify(cleanedRow.tags || []) }`. -/
def stageRow (ownerId : JStr) (cleaned : Row) : Row :=
  let tagsList : List JStr :=
    match jget cleaned (chars "tags") with
    | vArr l => l
    | _ => []
  jset (jset cleaned (chars "ownerId") (vStr ownerId))
    (chars "tags") (vStr (jsonStringify tagsList))

/-- One iteration of the row loop: clean, validate with both validators,
collect the row-prefixed warnings, and either stage the row or record a
`RowError` carrying the combined error lists.  Returns
`(errors delta, warnings delta, staged row?)`; the `.error` branches are the
loop body's catch (`Row processing failed: ...`). -/
def processOneRow (ownerId : JStr) (rowNum : Nat) (row : Row) :
    List RowError × List JStr × Option Row :=
  match cleanRowDataJ row with
  | .error msg =>
    ([⟨rowNum, [chars "Row processing failed: " ++ msg], some (.inr row)⟩], [], none)
  | .ok cleaned =>
    match validateRowJ cleaned with
    | .error msg =>
      ([⟨rowNum, [chars "Row processing failed: " ++ msg], some (.inr row)⟩], [], none)
    | .ok (enh, cleaned2) =>
      let z := validateCSVRowJ cleaned2
      let combined := enh.errors ++ (if ¬ z.1 then z.2 else [])
      let warns := enh.warnings.map
        (fun w => chars "Row " ++ natToChars rowNum ++ chars ": " ++ w)
      if enh.isValid ∧ z.1 then
        ([], warns, some (stageRow ownerId cleaned2))
      else
        ([⟨rowNum, combined, some (.inr row)⟩], warns, none)

/-- The row loop over the parsed data rows; data row `i` (0-based) is row
`i+2`.  Returns the accumulated row errors, warnings, and staged rows. -/
def processRowsAux (ownerId : JStr) : Nat → List Row → List RowError × List JStr × List Row
  | _, [] => ([], [], [])
  | i, row :: rest =>
    let d := processOneRow ownerId (i + 2) row
    let r := processRowsAux ownerId (i + 1) rest
    (d.1 ++ r.1, d.2.1 ++ r.2.1, d.2.2.toList ++ r.2.2)

/-- The cap warning for an over-long file. -/
def capMsg (n : Nat) : JStr :=
  chars "CSV contains " ++ natToChars n
    ++ chars " rows. Only first 1000 rows will be processed."

/-- The import state after the row loop, before the bulk insert. -/
structure StagedImport where
  res : ImportResult
  validRows : List Row
  deriving DecidableEq, Repr

/-- Either an early-returned result or the staged state awaiting the insert. -/
inductive ImportStage
  | early (r : ImportResult)
  | staged (st : StagedImport)
  deriving DecidableEq, Repr

/-- `importBuyersFromCSV` from the end of parsing to the end of the row loop:
fold parser diagnostics into the error list, short-circuit on empty data, cap
at 1000 rows with a warning, short-circuit on missing required headers, then
run the row loop. -/
def importStaging (pr : CSVParseResult) (ownerId : JStr) : ImportStage :=
  let parseErrs := pr.errors.map (fun e => RowError.mk e.row [e.message] (e.rawData.map .inl))
  if pr.data.isEmpty then
    .early { success := false, totalRows := 0, successfulImports := 0, failedImports := 0,
             errors := parseErrs ++ [⟨0, [chars "No valid data rows found in CSV"], none⟩],
             warnings := [] }
  else
    let n := pr.data.length
    let capped := if n > 1000 then (pr.data.take 1000, [capMsg n]) else (pr.data, [])
    let totalRows := capped.1.length
    let hv := validateRequiredHeaders capped.1 requiredHeaders
    if ¬ hv.1 then
      .early { success := false, totalRows, successfulImports := 0, failedImports := 0,
               errors := parseErrs
                 ++ [⟨0, [chars "Missing required headers: " ++ joinComma hv.2], none⟩],
               warnings := capped.2 }
    else
      let lp := processRowsAux ownerId 0 capped.1
      .staged ⟨{ success := false, totalRows,
                 successfulImports := lp.2.2.length, failedImports := lp.1.length,
                 errors := parseErrs ++ lp.1, warnings := capped.2 ++ lp.2.1 },
               lp.2.2⟩

/-- The bulk-insert step: with at least one staged row, a `createMany` failure
appends one row-0 database error and reclassifies every row as failed; finally
`success := successfulImports > 0`.  The insert outcome is the `db` oracle. -/
def finalizeImport (st : StagedImport) (db : Except JStr Unit) : ImportResult :=
  let res := st.res
  let res2 :=
    if ¬ st.validRows.isEmpty then
      match db with
      | .ok _ => res
      | .error e =>
        { res with
          errors := res.errors ++ [⟨0, [chars "Database import failed: " ++ e], none⟩],
          successfulImports := 0, failedImports := res.totalRows }
    else res
  { res2 with success := decide (res2.successfulImports > 0) }

/-- The import pipeline from parse result to final `ImportResult`:
`importStaging` followed by the bulk-insert step. -/
def importFromParsed (pr : CSVParseResult) (ownerId : JStr) (db : Except JStr Unit) :
    ImportResult :=
  match importStaging pr ownerId with
  | .early r => r
  | .staged st => finalizeImport st db

/-- `CSVImportService.importBuyersFromCSV`: file validation, parse, staging,
bulk insert.  Every failure path of the source resolves to a returned
`ImportResult` (the outer try/catch never fires: all remaining steps are
total), which the model reflects by being a total function. -/
def importBuyersFromCSV (file : JFile) (ownerId : JStr) (db : Except JStr Unit) :
    ImportResult :=
  match validateFile file with
  | some err =>
    { success := false, totalRows := 0, successfulImports := 0, failedImports := 0,
      errors := [⟨0, [err], none⟩], warnings := [] }
  | none => importFromParsed (parseCSV file.content) ownerId db

/-! ## Concrete inputs used by the claims -/
/-- A CSV upload with the given content ("leads.csv", `text/csv`). -/
def mkFile (content : String) : JFile :=
  ⟨chars "leads.csv", chars "text/csv", (chars content).length, chars content⟩

/-- The C2 scenario file: required headers only, one Apartment row without a
bhk column. -/
def c2File : JFile := mkFile
  "fullName,phone,city,propertyType,purpose,timeline,source\nJohn,9876543210,Chandigarh,Apartment,Buy,ZeroToThree,Website"

/-- A Plot row carrying a truthy bhk value (triggers the validator's
auto-fix). -/
def c3Row : Row :=
  [(chars "propertyType", vStr (chars "Plot")), (chars "bhk", vStr (chars "Two"))]

/-- The outcome of `validateRow` on `c3Row`. -/
def c3Out : VResult × Row :=
  match validateRowJ c3Row with
  | .ok p => p
  | .error _ => ⟨⟨false, [], []⟩, []⟩

/-- A cleaned row, valid in every field, with `budgetMin = 5` and
`budgetMax = 0`. -/
def c5Row : Row :=
  [(chars "fullName", vStr (chars "John")), (chars "phone", vStr (chars "9876543210")),
   (chars "city", vStr (chars "Chandigarh")), (chars "propertyType", vStr (chars "Plot")),
   (chars "purpose", vStr (chars "Buy")), (chars "timeline", vStr (chars "ZeroToThree")),
   (chars "source", vStr (chars "Website")),
   (chars "budgetMin", vNum 5), (chars "budgetMax", vNum 0)]

/-- Like `c5Row` but with `budgetMax = 3`: both budgets nonzero and inverted. -/
def c5RowB : Row :=
  [(chars "fullName", vStr (chars "John")), (chars "phone", vStr (chars "9876543210")),
   (chars "city", vStr (chars "Chandigarh")), (chars "propertyType", vStr (chars "Plot")),
   (chars "purpose", vStr (chars "Buy")), (chars "timeline", vStr (chars "ZeroToThree")),
   (chars "source", vStr (chars "Website")),
   (chars "budgetMin", vNum 5), (chars "budgetMax", vNum 3)]

/-- The outcome of `validateRow` on `c5RowB`. -/
def c5OutB : VResult × Row :=
  match validateRowJ c5RowB with
  | .ok p => p
  | .error _ => ⟨⟨false, [], []⟩, []⟩

/-! ## C3 — purity of the row validator -/
/-- The mutation `validateRow` performs on its input row: for
Plot/Office/Retail rows with a truthy non-null `bhk`, the `bhk` field is
assigned `null`; otherwise the row is untouched. -/
def bhkAutoFixed (row : Row) : Row :=
  let pt := jget row (chars "propertyType")
  let bhk := jget row (chars "bhk")
  if (pt = vStr (chars "Plot") ∨ pt = vStr (chars "Office") ∨ pt = vStr (chars "Retail"))
      ∧ truthy bhk ∧ bhk ≠ vNull then
    row.map (fun kv => if kv.1 = chars "bhk" then (kv.1, vNull) else kv)
  else row

/-! ## C5 — the budget cross-check -/
/-- The budget error message of `validateRow` for numeric budgets
`budgetMax = b`, `budgetMin = a`. -/
def budgetErrMsg (b a : ℚ) : JStr :=
  chars "budgetMax (" ++ jsNumToString b
    ++ chars ") must be greater than or equal to budgetMin ("
    ++ jsNumToString a ++ chars ")"

/-- A raw row whose city cell is the alias `"chd"` (used by C4). -/
def c4Row : Row :=
  [(chars "fullName", vStr (chars "John")), (chars "phone", vStr (chars "9876543210")),
   (chars "city", vStr (chars "chd")), (chars "propertyType", vStr (chars "Plot")),
   (chars "purpose", vStr (chars "Buy")), (chars "timeline", vStr (chars "ZeroToThree")),
   (chars "source", vStr (chars "Website"))]

/-- The cleaned form of `c4Row`. -/
def c4Clean : Row :=
  match cleanRowDataJ c4Row with
  | .ok C => C
  | .error _ => []

/-- The outcome of `validateRow` on `c4Clean`. -/
def c4Out : VResult × Row :=
  match validateRowJ c4Clean with
  | .ok p => p
  | .error _ => ⟨⟨false, [], []⟩, []⟩

/-- A file with one fully valid Plot row (used by C7). -/
def c7File : JFile := mkFile
  "fullName,phone,city,propertyType,purpose,timeline,source\nBob,9876543210,Mohali,Plot,Buy,Exploring,Website"

/-- The staged import state of `c7File` before the bulk insert. -/
def c7St : StagedImport :=
  match importStaging (parseCSV c7File.content) (chars "owner") with
  | .staged st => st
  | .early r => ⟨r, []⟩

/-- No two adjacent double quotes anywhere in the string (so the tokenizer's
escape branch can never fire). -/
def noDoubledQuote : JStr → Bool
  | [] => true
  | [_] => true
  | c1 :: c2 :: rest => !(c1 = '"' ∧ c2 = '"') && noDoubledQuote (c2 :: rest)

/-- The C6 scenario file: an Apartment row without bhk at file row 2 (a
validation error), four valid Plot rows, and a 6-column row at file row 7
(a parser diagnostic and an invalid `source`). -/
def c6File : JFile := mkFile
  "fullName,phone,city,propertyType,purpose,timeline,source\nAnn,9876543210,Chandigarh,Apartment,Buy,ZeroToThree,Website\nBob,9876543210,Mohali,Plot,Buy,Exploring,Website\nCam,9876543210,Mohali,Plot,Buy,Exploring,Website\nDan,9876543210,Mohali,Plot,Buy,Exploring,Website\nEve,9876543210,Mohali,Plot,Buy,Exploring,Website\nFay,9876543210,Mohali,Plot,Buy,Exploring"

/-- A parse result with 1050 data rows (used by C9: the 1000-row cap). -/
def pr9 : CSVParseResult := ⟨List.replicate 1050 [], []⟩

/-- Values on which a second run of the cleaner is safe: arrays always raise
(`tags.trim is not a function`) and truthy numbers raise (`budget.trim is not
a function`); only the number 0 is falsy and skipped. -/
def secondCleanSafe : JVal → Bool
  | vArr _ => false
  | vNum q => q = 0
  | _ => true

/-- The C1 counterexample row: a nonempty raw `tags` cell. -/
def c1Row : Row := [(chars "tags", vStr (chars "a"))]

/-! ## Theorems -/

theorem assocLookup_mem {α β : Type} [DecidableEq α]
    (l : List (α × β)) (k : α) (v : β) (h : assocLookup l k = some v) :
    (k, v) ∈ l := by
  induction l with
  | nil => simp [assocLookup] at h
  | cons p rest ih =>
    obtain ⟨k', v'⟩ := p
    by_cases hk : k' = k
    · subst hk
      simp [assocLookup] at h
      subst h
      exact List.mem_cons_self _ _
    · simp [assocLookup, hk] at h
      exact List.mem_cons_of_mem _ (ih h)

/-- The cons equation of `assocLookup`. -/
theorem assocLookup_cons {α β : Type} [DecidableEq α] (k' : α) (v : β)
    (rest : List (α × β)) (k : α) :
    assocLookup ((k', v) :: rest) k = if k' = k then some v else assocLookup rest k := rfl

theorem jsLowerChar_idem (c : Char) : jsLowerChar (jsLowerChar c) = jsLowerChar c := by
  unfold jsLowerChar
  cases h : assocLookup lowerPairs c with
  | none => simp [h]
  | some l =>
    have hmem : (c, l) ∈ lowerPairs := assocLookup_mem _ _ _ h
    have : ∀ p ∈ lowerPairs, assocLookup lowerPairs p.2 = none := by decide
    simp [this (c, l) hmem]

theorem jsLower_idem (s : JStr) : jsLower (jsLower s) = jsLower s := by
  unfold jsLower
  rw [List.map_map]
  exact List.map_congr_left (fun c _ => jsLowerChar_idem c)

theorem dropWhile_idem {α : Type} (p : α → Bool) (l : List α) :
    List.dropWhile p (List.dropWhile p l) = List.dropWhile p l := by
  induction l with
  | nil => rfl
  | cons a rest ih =>
    by_cases h : p a
    · simp [List.dropWhile, h, ih]
    · simp [List.dropWhile, h]

theorem dropWhile_head_false {α : Type} (p : α → Bool) (l : List α) {a : α} {r : List α}
    (h : List.dropWhile p l = a :: r) : p a = false := by
  induction l with
  | nil => simp [List.dropWhile] at h
  | cons b rest ih =>
    by_cases hb : p b
    · simp [List.dropWhile, hb] at h
      exact ih h
    · simp [List.dropWhile, hb] at h
      simp [← h.1, hb]

theorem getLast?_dropWhile {α : Type} (p : α → Bool) (l : List α)
    (h : List.dropWhile p l ≠ []) :
    (List.dropWhile p l).getLast? = l.getLast? := by
  induction l with
  | nil => simp [List.dropWhile] at h
  | cons b rest ih =>
    by_cases hb : p b
    · have hne : List.dropWhile p rest ≠ [] := by
        simpa [List.dropWhile, hb] using h
      have hrest : rest ≠ [] := by
        intro hr
        exact hne (by simp [hr, List.dropWhile])
      rw [show List.dropWhile p (b :: rest) = List.dropWhile p rest by
            simp [List.dropWhile, hb],
          ih hne]
      obtain ⟨c, rest', rfl⟩ := List.exists_cons_of_ne_nil hrest
      rw [List.getLast?_cons_cons]
    · simp [List.dropWhile, hb]

theorem jsTrim_idem (s : JStr) : jsTrim (jsTrim s) = jsTrim s := by
  unfold jsTrim
  have step1 :
      List.dropWhile isWs ((List.dropWhile isWs s).reverse.dropWhile isWs).reverse
        = ((List.dropWhile isWs s).reverse.dropWhile isWs).reverse := by
    cases h : ((List.dropWhile isWs s).reverse.dropWhile isWs).reverse with
    | nil => simp
    | cons a r =>
      have hne : (List.dropWhile isWs s).reverse.dropWhile isWs ≠ [] := by
        intro h0
        rw [h0] at h
        simp at h
      have hlast : ((List.dropWhile isWs s).reverse.dropWhile isWs).getLast?
          = (List.dropWhile isWs s).head? := by
        rw [getLast?_dropWhile _ _ hne, List.getLast?_reverse]
      have hhead : ((List.dropWhile isWs s).reverse.dropWhile isWs).reverse.head?
          = (List.dropWhile isWs s).head? := by
        rw [List.head?_reverse, hlast]
      rw [h] at hhead
      have ha : isWs a = false := by
        cases hd : List.dropWhile isWs s with
        | nil => rw [hd] at hhead; simp at hhead
        | cons b rest =>
          rw [hd] at hhead
          simp at hhead
          rw [hhead]
          exact dropWhile_head_false isWs s hd
      simp [List.dropWhile, ha]
  rw [step1, List.reverse_reverse, dropWhile_idem]

/-! ## C2 — the single-Apartment-row scenario -/
/-- C2 (corrected, counterexample): on the C2 scenario file the pipeline
records one `RowError` for row 2 whose errors list has length 2, not 1. -/
theorem c2_counterexample :
    (importBuyersFromCSV c2File (chars "owner") (.ok ())).errors.map
      (fun e => (e.row, e.errors.length)) = [(2, 2)] := by
  decide

/-- C2 (corrected): the import pipeline rejects the row with a `RowError` for
row 2 whose errors list has exactly two entries — `CSVRowValidator`'s
"bhk is required for Apartment properties" followed by the zod schema's
"bhk: BHK is required for Apartment and Villa property types" — because the
orchestrator concatenates both validators' errors. -/
theorem c2_amended :
    (importBuyersFromCSV c2File (chars "owner") (.ok ())).errors.map
      (fun e => (e.row, e.errors))
    = [(2, [chars "bhk is required for Apartment properties",
            chars "bhk: BHK is required for Apartment and Villa property types"])] := by
  decide

/-- C3 (corrected, counterexample): `validateRow` is not pure — on a Plot row
with `bhk = "Two"` the input row's `bhk` field is `null` after the call. -/
theorem c3_counterexample :
    (validateRowJ c3Row).map Prod.snd
      = .ok [(chars "propertyType", vStr (chars "Plot")), (chars "bhk", vNull)]
    ∧ jget c3Row (chars "bhk") = vStr (chars "Two") := by
  decide

/-- The row returned by `bhkCheck` is exactly the auto-fixed row. -/
theorem bhkCheck_row (row : Row) : (bhkCheck row).2.2 = bhkAutoFixed row := by
  unfold bhkCheck bhkAutoFixed
  dsimp only
  by_cases hav : jget row (chars "propertyType") = vStr (chars "Apartment")
      ∨ jget row (chars "propertyType") = vStr (chars "Villa")
  · have hpor : ¬ (jget row (chars "propertyType") = vStr (chars "Plot")
        ∨ jget row (chars "propertyType") = vStr (chars "Office")
        ∨ jget row (chars "propertyType") = vStr (chars "Retail")) := by
      rcases hav with hav | hav <;> rw [hav] <;> rintro (hc | hc | hc) <;>
        exact absurd hc (by decide)
    rw [if_pos hav, if_neg (fun hc =>
      hpor ((hc : (_ ∨ _ ∨ _) ∧ truthy (jget row (chars "bhk")) = true
        ∧ jget row (chars "bhk") ≠ vNull).1))]
    split <;> rfl
  · rw [if_neg hav]
    by_cases hpor : jget row (chars "propertyType") = vStr (chars "Plot")
        ∨ jget row (chars "propertyType") = vStr (chars "Office")
        ∨ jget row (chars "propertyType") = vStr (chars "Retail")
    · rw [if_pos hpor]
      by_cases htr : truthy (jget row (chars "bhk")) = true
          ∧ jget row (chars "bhk") ≠ vNull
      · rw [if_pos htr, if_pos ⟨hpor, htr⟩]
      · rw [if_neg htr, if_neg (fun hc => htr hc.2)]
    · rw [if_neg hpor, if_neg (fun hc => hpor hc.1)]

/-- C3 (corrected): `validateRow` returns `{isValid, errors, warnings}` but is
not free of side effects: the row after the call equals the input row except
that `bhk` is set to `null` when `propertyType` is Plot/Office/Retail and
`bhk` is truthy (the auto-fix); in every other case the row is unchanged. -/
theorem c3_amended (row : Row) (res : VResult) (row2 : Row)
    (h : validateRowJ row = .ok (res, row2)) : row2 = bhkAutoFixed row := by
  unfold validateRowJ at h
  simp only [bind, Except.bind, pure, Except.pure] at h
  split at h
  · exact absurd h (by simp)
  · split at h
    · exact absurd h (by simp)
    · rw [Except.ok.injEq, Prod.mk.injEq] at h
      rw [← h.2, bhkCheck_row]

/-- C3 witness: on the concrete Plot row the returned row is exactly
`bhkAutoFixed c3Row`. -/
theorem c3_amended_witness :
    validateRowJ c3Row = .ok (c3Out.1, c3Out.2) ∧ c3Out.2 = bhkAutoFixed c3Row :=
  ⟨by decide, c3_amended c3Row c3Out.1 c3Out.2 (by decide)⟩

/-! ## Inversion of `validateRow` and the shape of its messages -/
/-- Successful `validateRow` runs decompose into the check segments in source
order. -/
theorem validateRowJ_ok_inv (row : Row) (res : VResult) (row2 : Row)
    (h : validateRowJ row = .ok (res, row2)) :
    ∃ e2 e4 w4, phoneSegment row = .ok e2
      ∧ enumSegment row enumChecks = .ok (e4, w4)
      ∧ res.errors = reqSegment row ++ e2 ++ emailSegment row ++ e4 ++ (bhkCheck row).1
          ++ budgetSegment (bhkCheck row).2.2 ++ notesSegment (bhkCheck row).2.2
          ++ fullNameSegment (bhkCheck row).2.2
      ∧ res.warnings = w4 ++ (bhkCheck row).2.1
      ∧ res.isValid = res.errors.isEmpty
      ∧ row2 = (bhkCheck row).2.2 := by
  unfold validateRowJ at h
  simp only [bind, Except.bind, pure, Except.pure] at h
  split at h
  · exact absurd h (by simp)
  case h_2 e2 he2 =>
    split at h
    · exact absurd h (by simp)
    case h_2 p hp =>
      injection h with h1
      injection h1 with hres hrow
      refine ⟨e2, p.1, p.2, he2, by rw [hp], ?_, ?_, ?_, hrow.symm⟩
      · rw [← hres]
      · rw [← hres]
      · rw [← hres]

/-- Every required-field error is `field ++ " is required"` for a required
field that is actually missing. -/
theorem mem_reqSegment (row : Row) (x : JStr) (hx : x ∈ reqSegment row) :
    ∃ f ∈ requiredFields, x = f ++ chars " is required" ∧ reqMissing row f = true := by
  unfold reqSegment at hx
  rw [List.mem_filterMap] at hx
  obtain ⟨f, hf, hfx⟩ := hx
  refine ⟨f, hf, ?_, ?_⟩
  · by_cases hm : reqMissing row f = true
    · simp [hm] at hfx
      exact hfx.symm
    · simp [hm] at hfx
  · by_cases hm : reqMissing row f = true
    · exact hm
    · simp [hm] at hfx

/-- Every phone error extends the fixed phone-message prefix. -/
theorem mem_phoneSegment (row : Row) (e2 : List JStr)
    (h : phoneSegment row = .ok e2) (x : JStr) (hx : x ∈ e2) :
    ∃ t, x = chars "phone must be 10-15 digits (provided: " ++ t := by
  unfold phoneSegment at h
  simp only [pure, Except.pure] at h
  split at h
  · split at h
    case h_1 s =>
      injection h with h1
      subst h1
      split at hx
      · rw [List.mem_singleton] at hx
        exact ⟨_, by rw [hx, List.append_assoc]⟩
      · simp at hx
    · exact absurd h (by simp)
  · injection h with h1
    subst h1
    simp at hx

/-- Every email error extends the fixed email-message prefix. -/
theorem mem_emailSegment (row : Row) (x : JStr) (hx : x ∈ emailSegment row) :
    ∃ t, x = chars "email format is invalid (provided: " ++ t := by
  unfold emailSegment at hx
  split at hx
  · split at hx
    · rw [List.mem_singleton] at hx
      exact ⟨_, by rw [hx, List.append_assoc]⟩
    · simp at hx
  · simp at hx

/-- The errors (resp. warnings) of one enum field check start with the field
name followed by `" must be one of: "` (resp. `" '"`). -/
theorem mem_enumFieldCheck (row : Row) (p : JStr × List JStr) (e0 w0 : List JStr)
    (h : enumFieldCheck row p = .ok (e0, w0)) :
    (∀ x ∈ e0, ∃ t, x = p.1 ++ chars " must be one of: " ++ t)
    ∧ (∀ x ∈ w0, ∃ t, x = p.1 ++ chars " '" ++ t) := by
  unfold enumFieldCheck at h
  simp only [bind, Except.bind, pure, Except.pure] at h
  split at h
  · split at h
    · exact absurd h (by simp)
    case h_2 sugg hsugg =>
      split at h
      · injection h with h1
        injection h1 with he hw
        subst he
        subst hw
        constructor
        · intro x hx
          simp at hx
        · intro x hx
          rw [List.mem_singleton] at hx
          exact ⟨_, by rw [hx, List.append_assoc, List.append_assoc, List.append_assoc]⟩
      · injection h with h1
        injection h1 with he hw
        subst he
        subst hw
        constructor
        · intro x hx
          rw [List.mem_singleton] at hx
          exact ⟨_, by rw [hx, List.append_assoc, List.append_assoc, List.append_assoc]⟩
        · intro x hx
          simp at hx
  · injection h with h1
    injection h1 with he hw
    subst he
    subst hw
    constructor <;> intro x hx <;> simp at hx

/-- Every enum-check error (resp. warning) starts with its field name followed
by `" must be one of: "` (resp. `" '"`). -/
theorem mem_enumSegment (row : Row) (L : List (JStr × List JStr)) (es ws : List JStr)
    (h : enumSegment row L = .ok (es, ws)) :
    (∀ x ∈ es, ∃ p ∈ L, ∃ t, x = p.1 ++ chars " must be one of: " ++ t)
    ∧ (∀ x ∈ ws, ∃ p ∈ L, ∃ t, x = p.1 ++ chars " '" ++ t) := by
  induction L generalizing es ws with
  | nil =>
    unfold enumSegment at h
    injection h with h1
    injection h1 with he hw
    subst he
    subst hw
    constructor <;> intro x hx <;> simp at hx
  | cons p0 rest ih =>
    unfold enumSegment at h
    simp only [bind, Except.bind, pure, Except.pure] at h
    split at h
    · exact absurd h (by simp)
    case h_2 q0 hq0 =>
      split at h
      · exact absurd h (by simp)
      case h_2 q hq =>
        injection h with h1
        injection h1 with he hw
        subst he
        subst hw
        obtain ⟨hf1, hf2⟩ := mem_enumFieldCheck row p0 q0.1 q0.2 (by rw [hq0])
        obtain ⟨ih1, ih2⟩ := ih q.1 q.2 (by rw [hq])
        constructor
        · intro x hx
          rcases List.mem_append.mp hx with hx | hx
          · obtain ⟨t, ht⟩ := hf1 x hx
            exact ⟨p0, List.mem_cons_self _ _, t, ht⟩
          · obtain ⟨p, hpmem, t, ht⟩ := ih1 x hx
            exact ⟨p, List.mem_cons_of_mem _ hpmem, t, ht⟩
        · intro x hx
          rcases List.mem_append.mp hx with hx | hx
          · obtain ⟨t, ht⟩ := hf2 x hx
            exact ⟨p0, List.mem_cons_self _ _, t, ht⟩
          · obtain ⟨p, hpmem, t, ht⟩ := ih2 x hx
            exact ⟨p, List.mem_cons_of_mem _ hpmem, t, ht⟩

/-- Every enum-check error (resp. warning) originates from the check of one of
the listed fields. -/
theorem enumSegment_mem_field (row : Row) (L : List (JStr × List JStr)) (es ws : List JStr)
    (h : enumSegment row L = .ok (es, ws)) :
    (∀ x ∈ es, ∃ p ∈ L, ∃ e0 w0, enumFieldCheck row p = .ok (e0, w0) ∧ x ∈ e0)
    ∧ (∀ x ∈ ws, ∃ p ∈ L, ∃ e0 w0, enumFieldCheck row p = .ok (e0, w0) ∧ x ∈ w0) := by
  induction L generalizing es ws with
  | nil =>
    unfold enumSegment at h
    injection h with h1
    injection h1 with he hw
    subst he
    subst hw
    constructor <;> intro x hx <;> simp at hx
  | cons p0 rest ih =>
    unfold enumSegment at h
    simp only [bind, Except.bind, pure, Except.pure] at h
    split at h
    · exact absurd h (by simp)
    case h_2 q0 hq0 =>
      split at h
      · exact absurd h (by simp)
      case h_2 q hq =>
        injection h with h1
        injection h1 with he hw
        subst he
        subst hw
        obtain ⟨ih1, ih2⟩ := ih q.1 q.2 (by rw [hq])
        constructor
        · intro x hx
          rcases List.mem_append.mp hx with hx | hx
          · exact ⟨p0, List.mem_cons_self _ _, q0.1, q0.2, by rw [hq0], hx⟩
          · obtain ⟨p, hpmem, e0, w0, hfc, hx0⟩ := ih1 x hx
            exact ⟨p, List.mem_cons_of_mem _ hpmem, e0, w0, hfc, hx0⟩
        · intro x hx
          rcases List.mem_append.mp hx with hx | hx
          · exact ⟨p0, List.mem_cons_self _ _, q0.1, q0.2, by rw [hq0], hx⟩
          · obtain ⟨p, hpmem, e0, w0, hfc, hx0⟩ := ih2 x hx
            exact ⟨p, List.mem_cons_of_mem _ hpmem, e0, w0, hfc, hx0⟩

/-- Every BHK-rule error extends the fixed bhk-error prefix. -/
theorem mem_bhkCheck_errors (row : Row) (x : JStr) (hx : x ∈ (bhkCheck row).1) :
    ∃ t, x = chars "bhk is required for " ++ t := by
  unfold bhkCheck at hx
  dsimp only at hx
  split at hx
  · split at hx
    · rw [List.mem_singleton] at hx
      exact ⟨_, by rw [hx, List.append_assoc]⟩
    · simp at hx
  · split at hx
    · split at hx <;> simp at hx
    · simp at hx

/-- Every BHK-rule warning extends the fixed bhk-warning prefix. -/
theorem mem_bhkCheck_warnings (row : Row) (x : JStr) (hx : x ∈ (bhkCheck row).2.1) :
    ∃ t, x = chars "bhk should be empty for " ++ t := by
  unfold bhkCheck at hx
  dsimp only at hx
  split at hx
  · split at hx <;> simp at hx
  · split at hx
    · split at hx
      · rw [List.mem_singleton] at hx
        exact ⟨_, by rw [hx, List.append_assoc, List.append_assoc, List.append_assoc]⟩
      · simp at hx
    · simp at hx

/-- Every budget error extends the fixed budget-message prefix. -/
theorem mem_budgetSegment (row2 : Row) (x : JStr) (hx : x ∈ budgetSegment row2) :
    ∃ t, x = chars "budgetMax (" ++ t := by
  unfold budgetSegment at hx
  split at hx
  · split at hx
    · rw [List.mem_singleton] at hx
      exact ⟨_, by rw [hx, List.append_assoc, List.append_assoc, List.append_assoc]⟩
    · simp at hx
  · simp at hx

/-- Every notes error extends the fixed notes-message prefix. -/
theorem mem_notesSegment (row2 : Row) (x : JStr) (hx : x ∈ notesSegment row2) :
    ∃ t, x = chars "notes must be less than 1000 characters (provided: " ++ t := by
  unfold notesSegment at hx
  split at hx
  · split at hx
    · split at hx
      · rw [List.mem_singleton] at hx
        exact ⟨_, by rw [hx, List.append_assoc]⟩
      · simp at hx
    · simp at hx
  · simp at hx

/-- Every fullName error extends the fixed fullName-message prefix. -/
theorem mem_fullNameSegment (row2 : Row) (x : JStr) (hx : x ∈ fullNameSegment row2) :
    ∃ t, x = chars "fullName must be between 2 and 80 characters (provided: " ++ t := by
  unfold fullNameSegment at hx
  split at hx
  · split at hx
    · split at hx
      · rw [List.mem_singleton] at hx
        exact ⟨_, by rw [hx, List.append_assoc]⟩
      · simp at hx
    · simp at hx
  · simp at hx

/-! ## Pointwise structure of `cleanRowData` -/
/-- `jget` on a cons cell. -/
theorem jget_cons (k' : JStr) (x : JVal) (l : Row) (k : JStr) :
    jget ((k', x) :: l) k = if k' = k then x else jget l k := by
  unfold jget
  rw [assocLookup_cons]
  by_cases hkk : k' = k
  · rw [if_pos hkk, if_pos hkk]
    rfl
  · rw [if_neg hkk, if_neg hkk]

/-- Falsy values with no trimmable content pass through the per-entry cleaning
untouched. -/
theorem cleanEntryPre_falsy (k : JStr) (v : JVal) (hv : truthy v = false)
    (hvs : trimStep v = v) : cleanEntryPre k v = .ok v := by
  unfold cleanEntryPre
  rw [hvs]
  simp only [bind, Except.bind, pure, Except.pure]
  rw [if_neg (fun hc => by rw [hv] at hc; exact absurd hc.2 (by decide)),
      if_neg (fun hc => by rw [hv] at hc; exact absurd hc.2 (by decide)),
      if_neg (fun hc => by rw [hv] at hc; exact absurd hc.2 (by decide)),
      if_neg (fun hc => by rw [hv] at hc; exact absurd hc.2 (by decide))]
  cases htbl : enumTableFor k with
  | none => rfl
  | some tbl =>
    dsimp only
    rw [if_neg (fun hc => by rw [hv] at hc; exact absurd hc (by decide))]

/-- Inversion of `cleanEntries` on a cons cell. -/
theorem cleanEntries_cons_inv (k' : JStr) (v' : JVal) (rest : Row) (pre : Row)
    (h : cleanEntries ((k', v') :: rest) = .ok pre) :
    ∃ w pre', cleanEntryPre k' v' = .ok w ∧ cleanEntries rest = .ok pre'
      ∧ pre = (k', w) :: pre' := by
  unfold cleanEntries at h
  rw [List.mapM_cons] at h
  cases hw : cleanEntryPre k' v' with
  | error e =>
    rw [show (do let v ← cleanEntryPre k' v'; pure (k', v) :
          Except JStr (JStr × JVal)) = .error e by
        simp [bind, Except.bind, hw]] at h
    exact absurd h (by simp [bind, Except.bind])
  | ok w =>
    rw [show (do let v ← cleanEntryPre k' v'; pure (k', v) :
          Except JStr (JStr × JVal)) = .ok (k', w) by
        simp [bind, Except.bind, pure, Except.pure, hw]] at h
    cases hrest : cleanEntries rest with
    | error e =>
      unfold cleanEntries at hrest
      rw [hrest] at h
      exact absurd h (by simp [bind, Except.bind, pure, Except.pure])
    | ok pre' =>
      unfold cleanEntries at hrest
      rw [hrest] at h
      simp only [bind, Except.bind, pure, Except.pure] at h
      injection h with h1
      exact ⟨w, pre', rfl, rfl, h1.symm⟩

/-- Keywise view of the per-entry pass: the cleaned value under any key is the
per-entry cleaning of the raw value under that key. -/
theorem cleanEntries_jget (row pre : Row) (h : cleanEntries row = .ok pre) (k : JStr) :
    cleanEntryPre k (jget row k) = .ok (jget pre k) := by
  induction row generalizing pre with
  | nil =>
    unfold cleanEntries at h
    rw [List.mapM_nil] at h
    injection h with h1
    rw [← h1]
    exact cleanEntryPre_falsy k vUndef rfl rfl
  | cons kv rest ih =>
    obtain ⟨k', v'⟩ := kv
    obtain ⟨w, pre', hw, hrest, rfl⟩ := cleanEntries_cons_inv k' v' rest pre h
    rw [jget_cons, jget_cons]
    by_cases hkk : k' = k
    · subst hkk
      rw [if_pos rfl, if_pos rfl]
      exact hw
    · rw [if_neg hkk, if_neg hkk]
      exact ih pre' hrest

/-- Inversion of `cleanRowData`: the cleaned row is the empty-string pass
mapped over the per-entry pass. -/
theorem cleanRowDataJ_ok_inv (row C : Row) (h : cleanRowDataJ row = .ok C) :
    ∃ pre, cleanEntries row = .ok pre
      ∧ C = pre.map
          (fun kv => (kv.1, emptyPass (jget pre (chars "propertyType")) kv.1 kv.2)) := by
  unfold cleanRowDataJ at h
  simp only [bind, Except.bind, pure, Except.pure] at h
  split at h
  · exact absurd h (by simp)
  case h_2 pre hpre =>
    injection h with h1
    exact ⟨pre, hpre, h1.symm⟩

/-- `jget` through a value-mapping of a row. -/
theorem jget_mapVals (pre : Row) (f : JStr → JVal → JVal) (k : JStr) :
    jget (pre.map (fun kv => (kv.1, f kv.1 kv.2))) k
      = match assocLookup pre k with
        | some w => f k w
        | none => vUndef := by
  induction pre with
  | nil => rfl
  | cons kv rest ih =>
    obtain ⟨k', v'⟩ := kv
    simp only [List.map_cons]
    rw [jget_cons, assocLookup_cons]
    by_cases hkk : k' = k
    · subst hkk
      rw [if_pos rfl, if_pos rfl]
    · rw [if_neg hkk, if_neg hkk]
      exact ih

/-- Keywise view of the full `cleanRowData`. -/
theorem cleanRowDataJ_jget (row C : Row) (h : cleanRowDataJ row = .ok C) (k : JStr) :
    ∃ pre, cleanEntries row = .ok pre
      ∧ jget C k = emptyPass (jget pre (chars "propertyType")) k (jget pre k) := by
  obtain ⟨pre, hpre, hC⟩ := cleanRowDataJ_ok_inv row C h
  refine ⟨pre, hpre, ?_⟩
  rw [hC, jget_mapVals]
  cases hl : assocLookup pre k with
  | some w =>
    unfold jget
    rw [hl]
    rfl
  | none =>
    unfold jget
    rw [hl]
    rfl

/-- The bhk auto-fix rewrites no key other than `bhk`. -/
theorem assocLookup_bhkMap (row : Row) (k : JStr) (hk : k ≠ chars "bhk") :
    assocLookup (row.map (fun kv => if kv.1 = chars "bhk" then (kv.1, vNull) else kv)) k
      = assocLookup row k := by
  induction row with
  | nil => rfl
  | cons kv rest ih =>
    obtain ⟨k', v⟩ := kv
    by_cases hk' : k' = chars "bhk"
    · have hne : k' ≠ k := by rw [hk']; exact fun hc => hk hc.symm
      simp only [List.map_cons, if_pos hk']
      rw [assocLookup_cons, assocLookup_cons, if_neg hne, if_neg hne]
      exact ih
    · simp only [List.map_cons, if_neg hk']
      rw [assocLookup_cons, assocLookup_cons]
      by_cases hkk : k' = k
      · rw [if_pos hkk, if_pos hkk]
      · rw [if_neg hkk, if_neg hkk]
        exact ih

/-- `jget` on the auto-fixed row agrees with the input row away from `bhk`. -/
theorem jget_bhkAutoFixed_ne (row : Row) (k : JStr) (hk : k ≠ chars "bhk") :
    jget (bhkAutoFixed row) k = jget row k := by
  unfold bhkAutoFixed
  dsimp only
  split
  · unfold jget
    rw [assocLookup_bhkMap row k hk]
  · rfl

/-- `budgetSegment` on numeric nonzero budgets: exactly the inverted-budget
error, exactly when `budgetMax < budgetMin`. -/
theorem budgetSegment_num (row2 : Row) (a b : ℚ)
    (hmin : jget row2 (chars "budgetMin") = vNum a)
    (hmax : jget row2 (chars "budgetMax") = vNum b)
    (ha : a ≠ 0) (hb : b ≠ 0) :
    budgetSegment row2 = if b < a then [budgetErrMsg b a] else [] := by
  unfold budgetSegment
  rw [hmin, hmax]
  rw [if_pos ⟨by simp [truthy, ha], by simp [truthy, hb]⟩]
  by_cases hba : b < a
  · rw [if_pos hba, if_pos (by simp [jsLt, jsToNumber, hba])]
    rfl
  · rw [if_neg hba, if_neg (by simp [jsLt, jsToNumber, hba])]

/-- C5 (corrected, counterexample): a cleaned row with numeric budgets
`budgetMin = 5 > budgetMax = 0` passes `validateRow` with no errors at all
(`0` is falsy, so the budget check is skipped), so it is not marked invalid. -/
theorem c5_counterexample :
    jget c5Row (chars "budgetMin") = vNum 5
    ∧ jget c5Row (chars "budgetMax") = vNum 0
    ∧ validateRowJ c5Row = .ok (⟨true, [], []⟩, c5Row)
    ∧ validateCSVRowJ c5Row = (true, []) := by
  decide

/-- C5 (corrected): for a cleaned row whose `budgetMin`/`budgetMax` are both
numbers and both nonzero (JS truthiness), `validateRow` emits the error naming
both values exactly when `budgetMax < budgetMin`, and such a row is marked
invalid.  (When either budget is `0` the check is skipped — see the
counterexample.) -/
theorem c5_amended (row : Row) (a b : ℚ) (res : VResult) (row2 : Row)
    (hmin : jget row (chars "budgetMin") = vNum a)
    (hmax : jget row (chars "budgetMax") = vNum b)
    (ha : a ≠ 0) (hb : b ≠ 0)
    (h : validateRowJ row = .ok (res, row2)) :
    (budgetErrMsg b a ∈ res.errors ↔ b < a) ∧ (b < a → res.isValid = false) := by
  obtain ⟨e2, e4, w4, he2, he4, herr, hwarn, hvalid, hrow2⟩ := validateRowJ_ok_inv row res row2 h
  have hmin2 : jget (bhkCheck row).2.2 (chars "budgetMin") = vNum a := by
    rw [bhkCheck_row, jget_bhkAutoFixed_ne row _ (by decide), hmin]
  have hmax2 : jget (bhkCheck row).2.2 (chars "budgetMax") = vNum b := by
    rw [bhkCheck_row, jget_bhkAutoFixed_ne row _ (by decide), hmax]
  have hbud : budgetSegment (bhkCheck row).2.2 = if b < a then [budgetErrMsg b a] else [] :=
    budgetSegment_num _ a b hmin2 hmax2 ha hb
  have hbu : (budgetErrMsg b a).take 2 = chars "bu" := rfl
  have hfwd : b < a → budgetErrMsg b a ∈ res.errors := by
    intro hba
    rw [herr]
    have hm : budgetErrMsg b a ∈ budgetSegment (bhkCheck row).2.2 := by
      rw [hbud, if_pos hba]
      exact List.mem_singleton_self _
    exact List.mem_append_left _ (List.mem_append_left _ (List.mem_append_right _ hm))
  refine ⟨⟨?_, hfwd⟩, ?_⟩
  · intro hmem
    rw [herr] at hmem
    simp only [List.mem_append] at hmem
    rcases hmem with ((((((hmem | hmem) | hmem) | hmem) | hmem) | hmem) | hmem) | hmem
    · obtain ⟨f, hf, hform, -⟩ := mem_reqSegment row _ hmem
      simp only [requiredFields, List.mem_cons, List.not_mem_nil, or_false] at hf
      rcases hf with rfl | rfl | rfl | rfl | rfl | rfl | rfl
      · exact absurd (hbu.symm.trans
          (show (budgetErrMsg b a).take 2 = chars "fu" by rw [hform]; exact rfl)) (by decide)
      · exact absurd (hbu.symm.trans
          (show (budgetErrMsg b a).take 2 = chars "ph" by rw [hform]; exact rfl)) (by decide)
      · exact absurd (hbu.symm.trans
          (show (budgetErrMsg b a).take 2 = chars "ci" by rw [hform]; exact rfl)) (by decide)
      · exact absurd (hbu.symm.trans
          (show (budgetErrMsg b a).take 2 = chars "pr" by rw [hform]; exact rfl)) (by decide)
      · exact absurd (hbu.symm.trans
          (show (budgetErrMsg b a).take 2 = chars "pu" by rw [hform]; exact rfl)) (by decide)
      · exact absurd (hbu.symm.trans
          (show (budgetErrMsg b a).take 2 = chars "ti" by rw [hform]; exact rfl)) (by decide)
      · exact absurd (hbu.symm.trans
          (show (budgetErrMsg b a).take 2 = chars "so" by rw [hform]; exact rfl)) (by decide)
    · obtain ⟨t, ht⟩ := mem_phoneSegment row e2 he2 _ hmem
      have h2 : (budgetErrMsg b a).take 2 = chars "ph" := by rw [ht]; exact rfl
      exact absurd (hbu.symm.trans h2) (by decide)
    · obtain ⟨t, ht⟩ := mem_emailSegment row _ hmem
      have h2 : (budgetErrMsg b a).take 2 = chars "em" := by rw [ht]; exact rfl
      exact absurd (hbu.symm.trans h2) (by decide)
    · obtain ⟨p, hp, t, ht⟩ := (mem_enumSegment row enumChecks e4 w4 he4).1 _ hmem
      simp only [enumChecks, List.mem_cons, List.not_mem_nil, or_false] at hp
      rcases hp with rfl | rfl | rfl | rfl | rfl | rfl | rfl
      · exact absurd (hbu.symm.trans
          (show (budgetErrMsg b a).take 2 = chars "ci" by rw [ht]; exact rfl)) (by decide)
      · exact absurd (hbu.symm.trans
          (show (budgetErrMsg b a).take 2 = chars "pr" by rw [ht]; exact rfl)) (by decide)
      · exact absurd (hbu.symm.trans
          (show (budgetErrMsg b a).take 2 = chars "bh" by rw [ht]; exact rfl)) (by decide)
      · exact absurd (hbu.symm.trans
          (show (budgetErrMsg b a).take 2 = chars "pu" by rw [ht]; exact rfl)) (by decide)
      · exact absurd (hbu.symm.trans
          (show (budgetErrMsg b a).take 2 = chars "ti" by rw [ht]; exact rfl)) (by decide)
      · exact absurd (hbu.symm.trans
          (show (budgetErrMsg b a).take 2 = chars "so" by rw [ht]; exact rfl)) (by decide)
      · exact absurd (hbu.symm.trans
          (show (budgetErrMsg b a).take 2 = chars "st" by rw [ht]; exact rfl)) (by decide)
    · obtain ⟨t, ht⟩ := mem_bhkCheck_errors row _ hmem
      have h2 : (budgetErrMsg b a).take 2 = chars "bh" := by rw [ht]; exact rfl
      exact absurd (hbu.symm.trans h2) (by decide)
    · rw [hbud] at hmem
      by_cases hba : b < a
      · exact hba
      · rw [if_neg hba] at hmem
        simp at hmem
    · obtain ⟨t, ht⟩ := mem_notesSegment _ _ hmem
      have h2 : (budgetErrMsg b a).take 2 = chars "no" := by rw [ht]; exact rfl
      exact absurd (hbu.symm.trans h2) (by decide)
    · obtain ⟨t, ht⟩ := mem_fullNameSegment _ _ hmem
      have h2 : (budgetErrMsg b a).take 2 = chars "fu" := by rw [ht]; exact rfl
      exact absurd (hbu.symm.trans h2) (by decide)
  · intro hba
    rw [hvalid]
    have hne := List.ne_nil_of_mem (hfwd hba)
    cases hres : res.errors with
    | nil => exact absurd hres hne
    | cons y ys => rfl

/-- C5 witness: with budgets `(5, 3)` the theorem yields the budget error and
invalidity. -/
theorem c5_amended_witness :
    jget c5RowB (chars "budgetMin") = vNum 5
    ∧ jget c5RowB (chars "budgetMax") = vNum 3
    ∧ (5 : ℚ) ≠ 0 ∧ (3 : ℚ) ≠ 0
    ∧ validateRowJ c5RowB = .ok (c5OutB.1, c5OutB.2)
    ∧ ((budgetErrMsg 3 5 ∈ c5OutB.1.errors ↔ (3 : ℚ) < 5)
        ∧ ((3 : ℚ) < 5 → c5OutB.1.isValid = false)) :=
  ⟨by decide, by decide, by decide, by decide, by decide,
   c5_amended c5RowB 5 3 c5OutB.1 c5OutB.2 (by decide) (by decide) (by decide) (by decide)
     (by decide)⟩

/-! ## C4 — the `"chd"` city alias -/

/-- C4 (corrected, counterexample): on a row with raw city `"chd"` the
clean-then-validate pipeline yields city `"Chandigarh"` with no errors and
also no warnings — the alias mapping is silent. -/
theorem c4_counterexample :
    jget c4Row (chars "city") = vStr (chars "chd")
    ∧ cleanRowDataJ c4Row = .ok c4Clean
    ∧ jget c4Clean (chars "city") = vStr (chars "Chandigarh")
    ∧ validateRowJ c4Clean = .ok (⟨true, [], []⟩, c4Clean) := by
  decide

/-- C4 (corrected): for every row whose raw city cell is `"chd"`, cleaning
maps the city to `"Chandigarh"` and validation then records neither an error
nor a warning for the city field (no message starting with `"city"`): the
mapping happens silently during cleaning, because the validator's
"was mapped" warning can only fire on values the cleaner left unmapped. -/
theorem c4_amended (R C : Row) (res : VResult) (C2 : Row)
    (hcity : jget R (chars "city") = vStr (chars "chd"))
    (hclean : cleanRowDataJ R = .ok C)
    (hval : validateRowJ C = .ok (res, C2)) :
    jget C (chars "city") = vStr (chars "Chandigarh")
    ∧ (∀ e ∈ res.errors, e.take 4 ≠ chars "city")
    ∧ (∀ w ∈ res.warnings, w.take 4 ≠ chars "city") := by
  obtain ⟨pre, hpre, hkey⟩ := cleanRowDataJ_jget R C hclean (chars "city")
  have hpcity := cleanEntries_jget R pre hpre (chars "city")
  rw [hcity, show cleanEntryPre (chars "city") (vStr (chars "chd"))
      = .ok (vStr (chars "Chandigarh")) by decide] at hpcity
  injection hpcity with h1
  have hCcity : jget C (chars "city") = vStr (chars "Chandigarh") := by
    rw [hkey, ← h1]
    unfold emptyPass
    rw [if_neg (by decide)]
  obtain ⟨e2, e4, w4, he2, he4, herr, hwarn, hvalid, hrow2⟩ :=
    validateRowJ_ok_inv C res C2 hval
  have hcityFC : enumFieldCheck C (chars "city", cityValues) = .ok ([], []) := by
    unfold enumFieldCheck
    dsimp only
    rw [hCcity]
    rw [if_neg (fun hcond => hcond.2 (by decide))]
    rfl
  refine ⟨hCcity, ?_, ?_⟩
  · intro e hmem hc
    rw [herr] at hmem
    simp only [List.mem_append] at hmem
    rcases hmem with ((((((hmem | hmem) | hmem) | hmem) | hmem) | hmem) | hmem) | hmem
    · obtain ⟨f, hf, hform, hmiss⟩ := mem_reqSegment C _ hmem
      simp only [requiredFields, List.mem_cons, List.not_mem_nil, or_false] at hf
      rcases hf with rfl | rfl | rfl | rfl | rfl | rfl | rfl
      · rw [hform] at hc; exact absurd hc (by decide)
      · rw [hform] at hc; exact absurd hc (by decide)
      · unfold reqMissing at hmiss
        rw [hCcity] at hmiss
        exact absurd hmiss (by decide)
      · rw [hform] at hc; exact absurd hc (by decide)
      · rw [hform] at hc; exact absurd hc (by decide)
      · rw [hform] at hc; exact absurd hc (by decide)
      · rw [hform] at hc; exact absurd hc (by decide)
    · obtain ⟨t, ht⟩ := mem_phoneSegment C e2 he2 _ hmem
      rw [ht, show (chars "phone must be 10-15 digits (provided: " ++ t).take 4
          = chars "phon" from rfl] at hc
      exact absurd hc (by decide)
    · obtain ⟨t, ht⟩ := mem_emailSegment C _ hmem
      rw [ht, show (chars "email format is invalid (provided: " ++ t).take 4
          = chars "emai" from rfl] at hc
      exact absurd hc (by decide)
    · obtain ⟨p, hp, e0, w0, hfc, hx0⟩ :=
        (enumSegment_mem_field C enumChecks e4 w4 he4).1 _ hmem
      simp only [enumChecks, List.mem_cons, List.not_mem_nil, or_false] at hp
      rcases hp with rfl | rfl | rfl | rfl | rfl | rfl | rfl
      · rw [hcityFC] at hfc
        injection hfc with hfc1
        injection hfc1 with hfe hfw
        rw [← hfe] at hx0
        simp at hx0
      · obtain ⟨t, ht⟩ := (mem_enumFieldCheck C _ e0 w0 hfc).1 _ hx0
        rw [ht, show ((chars "propertyType", propertyTypeValues).1
            ++ chars " must be one of: " ++ t).take 4 = chars "prop" from rfl] at hc
        exact absurd hc (by decide)
      · obtain ⟨t, ht⟩ := (mem_enumFieldCheck C _ e0 w0 hfc).1 _ hx0
        rw [ht, show ((chars "bhk", bhkValues).1
            ++ chars " must be one of: " ++ t).take 4 = chars "bhk " from rfl] at hc
        exact absurd hc (by decide)
      · obtain ⟨t, ht⟩ := (mem_enumFieldCheck C _ e0 w0 hfc).1 _ hx0
        rw [ht, show ((chars "purpose", purposeValues).1
            ++ chars " must be one of: " ++ t).take 4 = chars "purp" from rfl] at hc
        exact absurd hc (by decide)
      · obtain ⟨t, ht⟩ := (mem_enumFieldCheck C _ e0 w0 hfc).1 _ hx0
        rw [ht, show ((chars "timeline", timelineValues).1
            ++ chars " must be one of: " ++ t).take 4 = chars "time" from rfl] at hc
        exact absurd hc (by decide)
      · obtain ⟨t, ht⟩ := (mem_enumFieldCheck C _ e0 w0 hfc).1 _ hx0
        rw [ht, show ((chars "source", sourceValues).1
            ++ chars " must be one of: " ++ t).take 4 = chars "sour" from rfl] at hc
        exact absurd hc (by decide)
      · obtain ⟨t, ht⟩ := (mem_enumFieldCheck C _ e0 w0 hfc).1 _ hx0
        rw [ht, show ((chars "status", statusValues).1
            ++ chars " must be one of: " ++ t).take 4 = chars "stat" from rfl] at hc
        exact absurd hc (by decide)
    · obtain ⟨t, ht⟩ := mem_bhkCheck_errors C _ hmem
      rw [ht, show (chars "bhk is required for " ++ t).take 4
          = chars "bhk " from rfl] at hc
      exact absurd hc (by decide)
    · obtain ⟨t, ht⟩ := mem_budgetSegment _ _ hmem
      rw [ht, show (chars "budgetMax (" ++ t).take 4 = chars "budg" from rfl] at hc
      exact absurd hc (by decide)
    · obtain ⟨t, ht⟩ := mem_notesSegment _ _ hmem
      rw [ht, show (chars "notes must be less than 1000 characters (provided: " ++ t).take 4
          = chars "note" from rfl] at hc
      exact absurd hc (by decide)
    · obtain ⟨t, ht⟩ := mem_fullNameSegment _ _ hmem
      rw [ht, show (chars "fullName must be between 2 and 80 characters (provided: "
          ++ t).take 4 = chars "full" from rfl] at hc
      exact absurd hc (by decide)
  · intro w hmem hc
    rw [hwarn] at hmem
    rcases List.mem_append.mp hmem with hmem | hmem
    · obtain ⟨p, hp, e0, w0, hfc, hx0⟩ :=
        (enumSegment_mem_field C enumChecks e4 w4 he4).2 _ hmem
      simp only [enumChecks, List.mem_cons, List.not_mem_nil, or_false] at hp
      rcases hp with rfl | rfl | rfl | rfl | rfl | rfl | rfl
      · rw [hcityFC] at hfc
        injection hfc with hfc1
        injection hfc1 with hfe hfw
        rw [← hfw] at hx0
        simp at hx0
      · obtain ⟨t, ht⟩ := (mem_enumFieldCheck C _ e0 w0 hfc).2 _ hx0
        rw [ht, show ((chars "propertyType", propertyTypeValues).1
            ++ chars " '" ++ t).take 4 = chars "prop" from rfl] at hc
        exact absurd hc (by decide)
      · obtain ⟨t, ht⟩ := (mem_enumFieldCheck C _ e0 w0 hfc).2 _ hx0
        rw [ht, show ((chars "bhk", bhkValues).1
            ++ chars " '" ++ t).take 4 = chars "bhk " from rfl] at hc
        exact absurd hc (by decide)
      · obtain ⟨t, ht⟩ := (mem_enumFieldCheck C _ e0 w0 hfc).2 _ hx0
        rw [ht, show ((chars "purpose", purposeValues).1
            ++ chars " '" ++ t).take 4 = chars "purp" from rfl] at hc
        exact absurd hc (by decide)
      · obtain ⟨t, ht⟩ := (mem_enumFieldCheck C _ e0 w0 hfc).2 _ hx0
        rw [ht, show ((chars "timeline", timelineValues).1
            ++ chars " '" ++ t).take 4 = chars "time" from rfl] at hc
        exact absurd hc (by decide)
      · obtain ⟨t, ht⟩ := (mem_enumFieldCheck C _ e0 w0 hfc).2 _ hx0
        rw [ht, show ((chars "source", sourceValues).1
            ++ chars " '" ++ t).take 4 = chars "sour" from rfl] at hc
        exact absurd hc (by decide)
      · obtain ⟨t, ht⟩ := (mem_enumFieldCheck C _ e0 w0 hfc).2 _ hx0
        rw [ht, show ((chars "status", statusValues).1
            ++ chars " '" ++ t).take 4 = chars "stat" from rfl] at hc
        exact absurd hc (by decide)
    · obtain ⟨t, ht⟩ := mem_bhkCheck_warnings C _ hmem
      rw [ht, show (chars "bhk should be empty for " ++ t).take 4
          = chars "bhk " from rfl] at hc
      exact absurd hc (by decide)

/-- C4 witness: the amended claim instantiated at the concrete `"chd"` row. -/
theorem c4_amended_witness :
    jget c4Row (chars "city") = vStr (chars "chd")
    ∧ cleanRowDataJ c4Row = .ok c4Clean
    ∧ validateRowJ c4Clean = .ok (c4Out.1, c4Out.2)
    ∧ (jget c4Clean (chars "city") = vStr (chars "Chandigarh")
       ∧ (∀ e ∈ c4Out.1.errors, e.take 4 ≠ chars "city")
       ∧ (∀ w ∈ c4Out.1.warnings, w.take 4 ≠ chars "city")) :=
  ⟨by decide, by decide, by decide,
   c4_amended c4Row c4Clean c4Out.1 c4Out.2 (by decide) (by decide) (by decide)⟩

/-! ## C7 — bulk-insert failure -/

/-- C7 (confirmed): when at least one row was staged and the bulk insert
fails, the returned result has `successfulImports = 0`,
`failedImports = totalRows`, `success = false`, and its error list is the
previously accumulated errors plus exactly one row-0 database error. -/
theorem c7_db_failure (file : JFile) (ownerId e : JStr) (st : StagedImport)
    (hfile : validateFile file = none)
    (hstage : importStaging (parseCSV file.content) ownerId = .staged st)
    (hrows : st.validRows ≠ []) :
    (importBuyersFromCSV file ownerId (.error e)).successfulImports = 0
    ∧ (importBuyersFromCSV file ownerId (.error e)).failedImports
        = (importBuyersFromCSV file ownerId (.error e)).totalRows
    ∧ (importBuyersFromCSV file ownerId (.error e)).success = false
    ∧ (importBuyersFromCSV file ownerId (.error e)).errors
        = st.res.errors ++ [⟨0, [chars "Database import failed: " ++ e], none⟩] := by
  have h1 : importBuyersFromCSV file ownerId (.error e) = finalizeImport st (.error e) := by
    unfold importBuyersFromCSV importFromParsed
    rw [hfile, hstage]
  obtain ⟨a, l, hal⟩ := List.exists_cons_of_ne_nil hrows
  have h2 : finalizeImport st (.error e) = { st.res with
      errors := st.res.errors ++ [⟨0, [chars "Database import failed: " ++ e], none⟩],
      successfulImports := 0, failedImports := st.res.totalRows, success := false } := by
    unfold finalizeImport
    dsimp only
    rw [if_pos (show ¬ st.validRows.isEmpty = true by rw [hal]; simp)]
    rfl
  rw [h1, h2]
  exact ⟨rfl, rfl, rfl, rfl⟩

/-- C7 witness: the db-failure contract instantiated on the one-row file. -/
theorem c7_db_failure_witness :
    validateFile c7File = none
    ∧ importStaging (parseCSV c7File.content) (chars "owner") = .staged c7St
    ∧ c7St.validRows ≠ []
    ∧ ((importBuyersFromCSV c7File (chars "owner") (.error (chars "boom"))).successfulImports = 0
       ∧ (importBuyersFromCSV c7File (chars "owner") (.error (chars "boom"))).failedImports
           = (importBuyersFromCSV c7File (chars "owner") (.error (chars "boom"))).totalRows
       ∧ (importBuyersFromCSV c7File (chars "owner") (.error (chars "boom"))).success = false
       ∧ (importBuyersFromCSV c7File (chars "owner") (.error (chars "boom"))).errors
           = c7St.res.errors
             ++ [⟨0, [chars "Database import failed: " ++ chars "boom"], none⟩]) :=
  ⟨by decide, by decide, by decide,
   c7_db_failure c7File (chars "owner") (chars "boom") c7St (by decide) (by decide) (by decide)⟩

/-! ## C10 — safety of the quote-aware tokenizer -/

/-- Unfolding of the tokenizer on a non-quote head character. -/
theorem parseLineAux_cons_ne (c : Char) (rest cur : JStr) (acc : List JStr) (q : Bool)
    (hc : c ≠ '"') :
    parseLineAux (c :: rest) cur acc q =
      if c = ',' ∧ ¬ q then parseLineAux rest [] (acc ++ [jsTrim cur]) false
      else parseLineAux rest (cur ++ [c]) acc q :=
  parseLineAux.eq_5 cur acc q c rest
    (fun _ h _ _ => hc h) (fun h _ => hc h) (fun h _ => hc h)

/-- Membership in a trimmed string implies membership in the string. -/
theorem mem_jsTrim (a : Char) (s : JStr) (h : a ∈ jsTrim s) : a ∈ s := by
  unfold jsTrim at h
  rw [List.mem_reverse] at h
  have h2 := (List.dropWhile_suffix isWs).sublist.subset h
  rw [List.mem_reverse] at h2
  exact (List.dropWhile_suffix isWs).sublist.subset h2

/-- `noDoubledQuote` passes to the tail. -/
theorem noDoubledQuote_tail (c : Char) (rest : JStr)
    (h : noDoubledQuote (c :: rest) = true) : noDoubledQuote rest = true := by
  cases rest with
  | nil => rfl
  | cons c2 r2 =>
    unfold noDoubledQuote at h
    exact (Bool.and_eq_true _ _ |>.mp h).2

/-- The tokenizer always flushes at least one field. -/
theorem parseLineAux_length (l : JStr) (cur : JStr) (acc : List JStr) (q : Bool) :
    acc.length + 1 ≤ (parseLineAux l cur acc q).length := by
  induction l, cur, acc, q using parseLineAux.induct with
  | case1 cur acc q => simp [parseLineAux]
  | case2 rest2 cur acc ih =>
    rw [parseLineAux]
    exact ih
  | case3 rest cur acc h ih =>
    rw [parseLineAux]
    exact ih
    exact h
  | case4 rest cur acc ih =>
    rw [parseLineAux]
    exact ih
  | case5 c rest cur acc q h1 h2 h3 hcond ih =>
    have hc : c ≠ '"' := by
      intro hcq
      cases q with
      | true => exact h2 hcq rfl
      | false => exact h3 hcq rfl
    rw [parseLineAux_cons_ne c rest cur acc q hc, if_pos hcond]
    have := ih
    simp only [List.length_append, List.length_singleton] at this ⊢
    omega
  | case6 c rest cur acc q h1 h2 h3 hcond ih =>
    have hc : c ≠ '"' := by
      intro hcq
      cases q with
      | true => exact h2 hcq rfl
      | false => exact h3 hcq rfl
    rw [parseLineAux_cons_ne c rest cur acc q hc, if_neg hcond]
    exact ih

/-- Inside an unterminated quote, the rest of the line (commas included)
accumulates into the single final field. -/
theorem parseLineAux_unterminated (l : JStr) :
    ∀ (cur : JStr) (acc : List JStr), l.all (fun c => c ≠ '"') = true →
      parseLineAux l cur acc true = acc ++ [jsTrim (cur ++ l)] := by
  induction l with
  | nil =>
    intro cur acc _
    simp [parseLineAux]
  | cons c rest ih =>
    intro cur acc hall
    rw [List.all_cons, Bool.and_eq_true] at hall
    have hc : c ≠ '"' := by
      intro hcq
      rw [hcq] at hall
      exact absurd hall.1 (by decide)
    rw [parseLineAux_cons_ne c rest cur acc true hc,
        if_neg (fun hcond => hcond.2 rfl), ih (cur ++ [c]) acc hall.2,
        List.append_assoc]
    rfl

/-- With no doubled quote in the line, no quote character survives into any
field. -/
theorem parseLineAux_no_quote (l : JStr) (cur : JStr) (acc : List JStr) (q : Bool) :
    noDoubledQuote l = true → (∀ f ∈ acc, '"' ∉ f) → '"' ∉ cur →
      ∀ f ∈ parseLineAux l cur acc q, '"' ∉ f := by
  induction l, cur, acc, q using parseLineAux.induct with
  | case1 cur acc q =>
    intro hnd hacc hcur f hf
    rw [parseLineAux] at hf
    rcases List.mem_append.mp hf with hf | hf
    · exact hacc f hf
    · rw [List.mem_singleton] at hf
      subst hf
      intro hq
      exact hcur (mem_jsTrim _ _ hq)
  | case2 rest2 cur acc ih =>
    intro hnd hacc hcur
    exact absurd hnd (by simp [noDoubledQuote])
  | case3 rest cur acc h ih =>
    intro hnd hacc hcur
    rw [parseLineAux]
    exact ih (noDoubledQuote_tail _ _ hnd) hacc hcur
    exact h
  | case4 rest cur acc ih =>
    intro hnd hacc hcur
    rw [parseLineAux]
    exact ih (noDoubledQuote_tail _ _ hnd) hacc hcur
  | case5 c rest cur acc q h1 h2 h3 hcond ih =>
    intro hnd hacc hcur
    have hc : c ≠ '"' := by
      intro hcq
      cases q with
      | true => exact h2 hcq rfl
      | false => exact h3 hcq rfl
    rw [parseLineAux_cons_ne c rest cur acc q hc, if_pos hcond]
    refine ih (noDoubledQuote_tail _ _ hnd) ?_ (by simp)
    intro f hf
    rcases List.mem_append.mp hf with hf | hf
    · exact hacc f hf
    · rw [List.mem_singleton] at hf
      subst hf
      intro hq
      exact hcur (mem_jsTrim _ _ hq)
  | case6 c rest cur acc q h1 h2 h3 hcond ih =>
    intro hnd hacc hcur
    have hc : c ≠ '"' := by
      intro hcq
      cases q with
      | true => exact h2 hcq rfl
      | false => exact h3 hcq rfl
    rw [parseLineAux_cons_ne c rest cur acc q hc, if_neg hcond]
    refine ih (noDoubledQuote_tail _ _ hnd) hacc ?_
    intro hq
    rcases List.mem_append.mp hq with hq | hq
    · exact hcur hq
    · rw [List.mem_singleton] at hq
      exact hc hq.symm

/-- C10 (confirmed): the quote-aware tokenizer (a) terminates with at least
one field on every line (it is a total function whose result always ends in a
final flush); (b) once inside an unterminated quote, every remaining comma is
field content and the rest of the line becomes part of the single final
field; and (c) when the line contains no doubled quote — i.e. no escaped
literal quote — no quote character appears in any output field. -/
theorem c10_parseCSVLine_safety :
    (∀ line : JStr, 1 ≤ (parseCSVLine line).length)
    ∧ (∀ (l cur : JStr) (acc : List JStr), l.all (fun c => c ≠ '"') = true →
        parseLineAux l cur acc true = acc ++ [jsTrim (cur ++ l)])
    ∧ (∀ line : JStr, noDoubledQuote line = true →
        ∀ f ∈ parseCSVLine line, '"' ∉ f) :=
  ⟨fun line => parseLineAux_length line [] [] false,
   fun l cur acc h => parseLineAux_unterminated l cur acc h,
   fun line hnd f hf =>
     parseLineAux_no_quote line [] [] false hnd (by simp) (by simp) f hf⟩

/-- C10 witness: the three safety parts instantiated on the malformed line
`a,"b,c` (unterminated quote). -/
theorem c10_witness :
    (1 ≤ (parseCSVLine (chars "a,\"b,c")).length)
    ∧ ((chars "b,c").all (fun c => c ≠ '"') = true
       ∧ parseLineAux (chars "b,c") [] [chars "a"] true
           = [chars "a"] ++ [jsTrim ([] ++ chars "b,c")])
    ∧ (noDoubledQuote (chars "a,\"b,c") = true
       ∧ '"' ∉ (parseCSVLine (chars "a,\"b,c")).headD []) :=
  ⟨c10_parseCSVLine_safety.1 (chars "a,\"b,c"),
   ⟨by decide, c10_parseCSVLine_safety.2.1 (chars "b,c") [] [chars "a"] (by decide)⟩,
   ⟨by decide, c10_parseCSVLine_safety.2.2 (chars "a,\"b,c") (by decide)
      ((parseCSVLine (chars "a,\"b,c")).headD []) (by decide)⟩⟩

/-! ## C9 — the 1000-row cap -/

/-- `take 4` of a string starting with the loop's row-warning prefix. -/
theorem take4_row (s : JStr) : (chars "Row " ++ s).take 4 = chars "Row " := rfl

/-- `take 4` of the cap warning. -/
theorem capMsg_take4 (n : Nat) : (capMsg n).take 4 = chars "CSV " := by
  unfold capMsg
  rw [List.append_assoc]
  exact rfl

/-- Every warning emitted by one row-loop iteration starts with `"Row "`. -/
theorem processOneRow_warnings_take (o : JStr) (n : Nat) (row : Row) (w : JStr)
    (hw : w ∈ (processOneRow o n row).2.1) : w.take 4 = chars "Row " := by
  unfold processOneRow at hw
  split at hw
  · exact absurd hw (by simp)
  · split at hw
    · exact absurd hw (by simp)
    · dsimp only at hw
      split at hw <;>
      · dsimp only at hw
        obtain ⟨w', hmem, hw'⟩ := List.mem_map.mp hw
        rw [← hw', List.append_assoc, List.append_assoc]
        exact take4_row _

/-- Every warning emitted by the row loop starts with `"Row "`. -/
theorem processRowsAux_warnings_take (o : JStr) (rows : List Row) :
    ∀ (i : Nat) (w : JStr),
      w ∈ (processRowsAux o i rows).2.1 → w.take 4 = chars "Row " := by
  induction rows with
  | nil => intro i w hw; exact absurd hw (by simp [processRowsAux])
  | cons r rest ih =>
    intro i w hw
    rw [processRowsAux] at hw
    dsimp only at hw
    rcases List.mem_append.mp hw with h1 | h2
    · exact processOneRow_warnings_take o (i + 2) r w h1
    · exact ih (i + 1) w h2

/-- The bulk-insert step keeps `totalRows` and the warning list, and commutes
with prepending a warning. -/
theorem import_cap_core (E : List RowError) (T S F : Nat) (W : List JStr) (x : JStr)
    (v : List Row) (db : Except JStr Unit) :
    (finalizeImport ⟨⟨false, T, S, F, E, x :: W⟩, v⟩ db).totalRows = T
    ∧ (finalizeImport ⟨⟨false, T, S, F, E, x :: W⟩, v⟩ db).warnings = x :: W
    ∧ (finalizeImport ⟨⟨false, T, S, F, E, W⟩, v⟩ db).warnings = W
    ∧ finalizeImport ⟨⟨false, T, S, F, E, x :: W⟩, v⟩ db
        = { finalizeImport ⟨⟨false, T, S, F, E, W⟩, v⟩ db with
            warnings := x :: W } := by
  unfold finalizeImport
  dsimp only
  split
  · cases db with
    | ok u => exact ⟨rfl, rfl, rfl, rfl⟩
    | error e => exact ⟨rfl, rfl, rfl, rfl⟩
  · exact ⟨rfl, rfl, rfl, rfl⟩

/-- C9 (confirmed): when the parsed data-row count `n` exceeds 1000, only the
first 1000 rows are processed — the result equals the import of the parse
result truncated to its first 1000 rows, with the single cap warning (naming
the 1000-row cap and `n`) prepended — `totalRows` is 1000, and the cap warning
occurs exactly once in the warnings. -/
theorem c9_row_cap (pr : CSVParseResult) (ownerId : JStr) (db : Except JStr Unit)
    (h : 1000 < pr.data.length) :
    (importFromParsed pr ownerId db).totalRows = 1000
    ∧ (importFromParsed pr ownerId db).warnings.count (capMsg pr.data.length) = 1
    ∧ importFromParsed pr ownerId db
        = { importFromParsed ⟨pr.data.take 1000, pr.errors⟩ ownerId db with
            warnings := capMsg pr.data.length
              :: (importFromParsed ⟨pr.data.take 1000, pr.errors⟩ ownerId db).warnings } := by
  have hlen : (pr.data.take 1000).length = 1000 := by
    rw [List.length_take]; omega
  have hne : ¬ (pr.data.isEmpty = true) := by
    intro hE
    rw [List.isEmpty_iff] at hE
    rw [hE] at h
    simp at h
  have hne' : ¬ ((pr.data.take 1000).isEmpty = true) := by
    intro hE
    rw [List.isEmpty_iff] at hE
    rw [hE] at hlen
    simp at hlen
  have hcap' : ¬ ((pr.data.take 1000).length > 1000) := by omega
  unfold importFromParsed importStaging
  dsimp only
  rw [if_neg hne, if_neg hne', if_pos h, if_neg hcap']
  dsimp only
  by_cases hv1 : (validateRequiredHeaders (pr.data.take 1000) requiredHeaders).1 = true
  · rw [if_neg (fun hc => hc hv1)]
    rw [if_neg (fun hc => hc hv1)]
    dsimp only
    rw [List.singleton_append, List.nil_append]
    refine ⟨?_, ?_, ?_⟩
    · rw [(import_cap_core _ _ _ _ _ _ _ db).1]
      exact hlen
    · rw [(import_cap_core _ _ _ _ _ _ _ db).2.1, List.count_cons_self]
      have h0 : (processRowsAux ownerId 0 (pr.data.take 1000)).2.1.count
          (capMsg pr.data.length) = 0 := by
        rw [List.count_eq_zero]
        intro hmem
        have h4 := processRowsAux_warnings_take ownerId (pr.data.take 1000) 0 _ hmem
        rw [capMsg_take4] at h4
        exact absurd h4 (by decide)
      rw [h0]
    · rw [(import_cap_core _ _ _ _ _ (capMsg pr.data.length) _ db).2.2.1]
      exact (import_cap_core _ _ _ _ _ _ _ db).2.2.2
  · rw [if_pos hv1]
    rw [if_pos hv1]
    dsimp only
    refine ⟨hlen, by simp, rfl⟩

/-- C9 witness: the cap contract instantiated on a 1050-row parse result. -/
theorem c9_witness :
    1000 < pr9.data.length
    ∧ ((importFromParsed pr9 (chars "o") (.ok ())).totalRows = 1000
       ∧ (importFromParsed pr9 (chars "o")
            (.ok ())).warnings.count (capMsg pr9.data.length) = 1
       ∧ importFromParsed pr9 (chars "o") (.ok ())
           = { importFromParsed ⟨pr9.data.take 1000, pr9.errors⟩ (chars "o") (.ok ()) with
               warnings := capMsg pr9.data.length
                 :: (importFromParsed ⟨pr9.data.take 1000, pr9.errors⟩ (chars "o")
                      (.ok ())).warnings }) :=
  ⟨by simp [pr9], c9_row_cap pr9 (chars "o") (.ok ()) (by simp [pr9])⟩

/-! ## C8 — totality of the orchestrator -/

/-- Each loop iteration yields exactly one of: a row error, or a staged row. -/
theorem processOneRow_count (o : JStr) (n : Nat) (row : Row) :
    (processOneRow o n row).1.length + (processOneRow o n row).2.2.toList.length = 1 := by
  unfold processOneRow
  split
  · rfl
  · split
    · rfl
    · dsimp only
      split
      · rfl
      · rfl

/-- The row loop accounts for every row: errors plus staged rows = rows. -/
theorem processRowsAux_count (o : JStr) (rows : List Row) :
    ∀ i : Nat, (processRowsAux o i rows).1.length
        + (processRowsAux o i rows).2.2.length = rows.length := by
  induction rows with
  | nil => intro i; rfl
  | cons r rest ih =>
    intro i
    rw [processRowsAux]
    dsimp only
    rw [List.length_append, List.length_append]
    have h1 := processOneRow_count o (i + 2) r
    have h2 := ih (i + 1)
    simp only [List.length_cons]
    omega

/-- The bulk-insert step preserves the count invariants. -/
theorem finalizeImport_inv (st : StagedImport) (db : Except JStr Unit)
    (h : st.res.failedImports + st.res.successfulImports ≤ st.res.totalRows) :
    (finalizeImport st db).success
        = decide (0 < (finalizeImport st db).successfulImports)
    ∧ (finalizeImport st db).successfulImports + (finalizeImport st db).failedImports
        ≤ (finalizeImport st db).totalRows := by
  unfold finalizeImport
  dsimp only
  split
  · cases db with
    | ok u => exact ⟨rfl, by dsimp only; omega⟩
    | error e => exact ⟨rfl, by dsimp only; omega⟩
  · exact ⟨rfl, by omega⟩

/-- C8 (confirmed): the orchestrator is total — in this model
`importBuyersFromCSV` is a total function, every failure path of the source
(file validation, parse, per-row cleaning/validation, storage) resolving to a
returned `ImportResult` — and the returned result is coherently populated on
every path: `success` is exactly `successfulImports > 0`, and
`successfulImports + failedImports` never exceeds `totalRows`. -/
theorem c8_total_invariants (file : JFile) (ownerId : JStr) (db : Except JStr Unit) :
    (importBuyersFromCSV file ownerId db).success
        = decide (0 < (importBuyersFromCSV file ownerId db).successfulImports)
    ∧ (importBuyersFromCSV file ownerId db).successfulImports
        + (importBuyersFromCSV file ownerId db).failedImports
        ≤ (importBuyersFromCSV file ownerId db).totalRows := by
  unfold importBuyersFromCSV
  split
  · exact ⟨rfl, Nat.le_refl _⟩
  · unfold importFromParsed
    split
    · rename_i r heq
      unfold importStaging at heq
      dsimp only at heq
      split at heq
      · injection heq with h
        rw [← h]
        exact ⟨rfl, Nat.le_refl _⟩
      · split at heq <;> split at heq <;>
          first
          | (injection heq with h
             rw [← h]
             exact ⟨rfl, Nat.zero_le _⟩)
          | exact ImportStage.noConfusion heq
    · rename_i st heq
      unfold importStaging at heq
      dsimp only at heq
      split at heq
      · exact ImportStage.noConfusion heq
      · split at heq <;> split at heq <;>
          first
          | (injection heq with hst
             rw [← hst]
             exact finalizeImport_inv _ db (Nat.le_of_eq (processRowsAux_count ownerId _ 0)))
          | exact ImportStage.noConfusion heq

/-! ## C6 — ordering of errors and warnings -/

/-- C6 (corrected, counterexample): on the `c6File` scenario the returned
errors carry row numbers `[7, 2, 7]` — the row-7 parser diagnostic precedes
the row-2 validation error — so the error sequence is not ordered by the
originating file row. -/
theorem c6_counterexample :
    ((importBuyersFromCSV c6File (chars "owner") (.ok ())).errors.map RowError.row
        = [7, 2, 7])
    ∧ ¬ (((importBuyersFromCSV c6File (chars "owner")
          (.ok ())).errors.map RowError.row).Pairwise (· ≤ ·)) := by decide

/-- A list all of whose elements equal `n` is sorted. -/
theorem pairwise_le_of_all_eq (l : List Nat) (n : Nat) (h : ∀ a ∈ l, a = n) :
    l.Pairwise (· ≤ ·) := by
  induction l with
  | nil => exact List.Pairwise.nil
  | cons a t ih =>
    refine List.Pairwise.cons ?_ (ih (fun b hb => h b (List.mem_cons_of_mem a hb)))
    intro b hb
    rw [h a (List.mem_cons_self a t), h b (List.mem_cons_of_mem a hb)]

/-- A row-loop iteration only records errors carrying its own row number. -/
theorem processOneRow_errors_row (o : JStr) (n : Nat) (row : Row) :
    ∀ e ∈ (processOneRow o n row).1, e.row = n := by
  intro e he
  unfold processOneRow at he
  split at he
  · rw [List.mem_singleton] at he; rw [he]
  · split at he
    · rw [List.mem_singleton] at he; rw [he]
    · dsimp only at he
      split at he
      · exact absurd he (by simp)
      · rw [List.mem_singleton] at he; rw [he]

/-- The row loop emits its errors in ascending row order, all ≥ `i + 2`. -/
theorem processRowsAux_errors_sorted (o : JStr) (rows : List Row) :
    ∀ i : Nat, (∀ e ∈ (processRowsAux o i rows).1, i + 2 ≤ e.row)
      ∧ ((processRowsAux o i rows).1.map RowError.row).Pairwise (· ≤ ·) := by
  induction rows with
  | nil =>
    intro i
    constructor
    · intro e he; exact absurd he (by simp [processRowsAux])
    · simp [processRowsAux]
  | cons r rest ih =>
    intro i
    obtain ⟨hlb, hsort⟩ := ih (i + 1)
    constructor
    · intro e he
      rw [processRowsAux] at he
      dsimp only at he
      rcases List.mem_append.mp he with h1 | h2
      · rw [processOneRow_errors_row o (i + 2) r e h1]
      · have := hlb e h2; omega
    · rw [processRowsAux]
      dsimp only
      rw [List.map_append, List.pairwise_append]
      refine ⟨pairwise_le_of_all_eq _ (i + 2) ?_, hsort, ?_⟩
      · intro a ha
        obtain ⟨e, he, hae⟩ := List.mem_map.mp ha
        rw [← hae, processOneRow_errors_row o (i + 2) r e he]
      · intro a ha b hb
        obtain ⟨e, he, hae⟩ := List.mem_map.mp ha
        obtain ⟨e2, he2, hbe⟩ := List.mem_map.mp hb
        have h2 := hlb e2 he2
        have h1 : a = i + 2 := by
          rw [← hae, processOneRow_errors_row o (i + 2) r e he]
        rw [← hbe]
        omega

/-- A row-loop iteration tags each of its warnings with its own row number. -/
theorem processOneRow_warnings_form (o : JStr) (n : Nat) (row : Row) :
    ∃ ws : List JStr, (processOneRow o n row).2.1
        = ws.map (fun w => chars "Row " ++ natToChars n ++ chars ": " ++ w) := by
  unfold processOneRow
  split
  · exact ⟨[], rfl⟩
  · split
    · exact ⟨[], rfl⟩
    · dsimp only
      split
      · exact ⟨_, rfl⟩
      · exact ⟨_, rfl⟩

/-- The row loop's warnings render a row-tagged list whose tags are ascending
and all ≥ `i + 2`. -/
theorem processRowsAux_warnings_tagged (o : JStr) (rows : List Row) :
    ∀ i : Nat, ∃ tagged : List (Nat × JStr),
      (processRowsAux o i rows).2.1
          = tagged.map (fun p => chars "Row " ++ natToChars p.1 ++ chars ": " ++ p.2)
      ∧ (∀ p ∈ tagged, i + 2 ≤ p.1)
      ∧ (tagged.map Prod.fst).Pairwise (· ≤ ·) := by
  induction rows with
  | nil =>
    intro i
    exact ⟨[], rfl, by simp, List.Pairwise.nil⟩
  | cons r rest ih =>
    intro i
    obtain ⟨t, hT, hlb, hsort⟩ := ih (i + 1)
    obtain ⟨ws, hws⟩ := processOneRow_warnings_form o (i + 2) r
    refine ⟨ws.map (fun w => (i + 2, w)) ++ t, ?_, ?_, ?_⟩
    · rw [processRowsAux]
      dsimp only
      rw [hws, hT, List.map_append, List.map_map]
      rfl
    · intro p hp
      rcases List.mem_append.mp hp with h1 | h2
      · obtain ⟨w, hw, hpw⟩ := List.mem_map.mp h1
        rw [← hpw]
      · have := hlb p h2; omega
    · rw [List.map_append, List.pairwise_append]
      refine ⟨?_, hsort, ?_⟩
      · rw [List.map_map]
        refine pairwise_le_of_all_eq _ (i + 2) ?_
        intro a ha
        obtain ⟨w, hw, haw⟩ := List.mem_map.mp ha
        rw [← haw]
        rfl
      · intro a ha b hb
        obtain ⟨w, hw, haw⟩ := List.mem_map.mp ha
        obtain ⟨p, hp, hbp⟩ := List.mem_map.mp hb
        obtain ⟨w2, hw2, hww⟩ := List.mem_map.mp hw
        have h2 := hlb p hp
        have h1 : a = i + 2 := by rw [← haw, ← hww]
        rw [← hbp]
        omega

/-- The bulk-insert step keeps the warnings and at most appends one row-0
database error. -/
theorem finalizeImport_shape (st : StagedImport) (db : Except JStr Unit) :
    ((finalizeImport st db).errors = st.res.errors
      ∨ ∃ e, (finalizeImport st db).errors
          = st.res.errors ++ [⟨0, [chars "Database import failed: " ++ e], none⟩])
    ∧ (finalizeImport st db).warnings = st.res.warnings := by
  unfold finalizeImport
  dsimp only
  split
  · cases db with
    | ok u => exact ⟨Or.inl rfl, rfl⟩
    | error e => exact ⟨Or.inr ⟨e, rfl⟩, rfl⟩
  · exact ⟨Or.inl rfl, rfl⟩

/-- Error/warning decomposition of the bulk-insert step applied to a staged
row-loop state. -/
theorem staged_decomp (pe : List RowError) (T n : Nat) (ownerId : JStr) (rows : List Row)
    (capw : List JStr) (db : Except JStr Unit)
    (hcw : capw = [] ∨ capw = [capMsg n]) :
    ∃ (loop tail0 : List RowError) (capw2 : List JStr) (tagged : List (Nat × JStr)),
      (finalizeImport ⟨⟨false, T,
          (processRowsAux ownerId 0 rows).2.2.length,
          (processRowsAux ownerId 0 rows).1.length,
          pe ++ (processRowsAux ownerId 0 rows).1,
          capw ++ (processRowsAux ownerId 0 rows).2.1⟩,
          (processRowsAux ownerId 0 rows).2.2⟩ db).errors
          = pe ++ loop ++ tail0
      ∧ (∀ e ∈ loop, 2 ≤ e.row)
      ∧ (loop.map RowError.row).Pairwise (· ≤ ·)
      ∧ (∀ e ∈ tail0, e.row = 0)
      ∧ (finalizeImport ⟨⟨false, T,
          (processRowsAux ownerId 0 rows).2.2.length,
          (processRowsAux ownerId 0 rows).1.length,
          pe ++ (processRowsAux ownerId 0 rows).1,
          capw ++ (processRowsAux ownerId 0 rows).2.1⟩,
          (processRowsAux ownerId 0 rows).2.2⟩ db).warnings
          = capw2 ++ tagged.map (fun p => chars "Row " ++ natToChars p.1 ++ chars ": " ++ p.2)
      ∧ (capw2 = [] ∨ capw2 = [capMsg n])
      ∧ (∀ p ∈ tagged, 2 ≤ p.1)
      ∧ (tagged.map Prod.fst).Pairwise (· ≤ ·) := by
  obtain ⟨t, hT, htlb, hts⟩ := processRowsAux_warnings_tagged ownerId rows 0
  obtain ⟨helb, hes⟩ := processRowsAux_errors_sorted ownerId rows 0
  unfold finalizeImport
  dsimp only
  split
  · cases db with
    | ok u =>
      refine ⟨(processRowsAux ownerId 0 rows).1, [], capw, t,
        ?_, ?_, hes, by simp, ?_, hcw, ?_, hts⟩
      · rw [List.append_nil]
      · intro e he; have := helb e he; omega
      · rw [hT]
      · intro p hp; have := htlb p hp; omega
    | error e =>
      refine ⟨(processRowsAux ownerId 0 rows).1,
        [⟨0, [chars "Database import failed: " ++ e], none⟩], capw, t,
        ?_, ?_, hes, by simp, ?_, hcw, ?_, hts⟩
      · rfl
      · intro e2 he2; have := helb e2 he2; omega
      · rw [hT]
      · intro p hp; have := htlb p hp; omega
  · refine ⟨(processRowsAux ownerId 0 rows).1, [], capw, t,
      ?_, ?_, hes, by simp, ?_, hcw, ?_, hts⟩
    · rw [List.append_nil]
    · intro e he; have := helb e he; omega
    · rw [hT]
    · intro p hp; have := htlb p hp; omega

/-- C6 (corrected): the result's errors are the parser diagnostics (as
produced by the parser), followed by the row-loop errors sorted ascending by
row (all rows ≥ 2), followed only by row-0 entries; the warnings are the
optional cap warning followed by the loop warnings, which render a row-tagged
list sorted ascending by row.  The blocks are not interleaved, so a late
parser diagnostic precedes an early validation error (the spec's global
file-order claim fails), but within the validation block file order is
preserved. -/
theorem c6_amended (pr : CSVParseResult) (ownerId : JStr) (db : Except JStr Unit) :
    ∃ (loop tail0 : List RowError) (capw : List JStr) (tagged : List (Nat × JStr)),
      (importFromParsed pr ownerId db).errors
          = pr.errors.map (fun e => RowError.mk e.row [e.message] (e.rawData.map Sum.inl))
            ++ loop ++ tail0
      ∧ (∀ e ∈ loop, 2 ≤ e.row)
      ∧ (loop.map RowError.row).Pairwise (· ≤ ·)
      ∧ (∀ e ∈ tail0, e.row = 0)
      ∧ (importFromParsed pr ownerId db).warnings
          = capw ++ tagged.map (fun p => chars "Row " ++ natToChars p.1 ++ chars ": " ++ p.2)
      ∧ (capw = [] ∨ capw = [capMsg pr.data.length])
      ∧ (∀ p ∈ tagged, 2 ≤ p.1)
      ∧ (tagged.map Prod.fst).Pairwise (· ≤ ·) := by
  unfold importFromParsed
  split
  · rename_i r heq
    unfold importStaging at heq
    dsimp only at heq
    split at heq
    · injection heq with h
      rw [← h]
      refine ⟨[], [⟨0, [chars "No valid data rows found in CSV"], none⟩], [], [],
        by rw [List.append_nil], by simp, by simp, by simp, rfl, Or.inl rfl, by simp,
        List.Pairwise.nil⟩
    · split at heq
      · split at heq
        · injection heq with h
          rw [← h]
          dsimp only
          refine ⟨[], [⟨0, [chars "Missing required headers: "
              ++ joinComma (validateRequiredHeaders (List.take 1000 pr.data)
                requiredHeaders).2], none⟩], [capMsg pr.data.length], [],
            ?_, by simp, by simp, ?_, ?_, Or.inr rfl, by simp, List.Pairwise.nil⟩
          · rw [List.append_nil]
          · simp
          · simp
        · exact ImportStage.noConfusion heq
      · split at heq
        · injection heq with h
          rw [← h]
          dsimp only
          refine ⟨[], [⟨0, [chars "Missing required headers: "
              ++ joinComma (validateRequiredHeaders pr.data requiredHeaders).2], none⟩],
            [], [],
            ?_, by simp, by simp, ?_, ?_, Or.inl rfl, by simp, List.Pairwise.nil⟩
          · rw [List.append_nil]
          · simp
          · simp
        · exact ImportStage.noConfusion heq
  · rename_i st heq
    unfold importStaging at heq
    dsimp only at heq
    split at heq
    · exact ImportStage.noConfusion heq
    · split at heq
      · split at heq
        · exact ImportStage.noConfusion heq
        · injection heq with hst
          rw [← hst]
          dsimp only
          exact staged_decomp _ _ _ ownerId (List.take 1000 pr.data)
            [capMsg pr.data.length] db (Or.inr rfl)
      · split at heq
        · exact ImportStage.noConfusion heq
        · injection heq with hst
          rw [← hst]
          dsimp only
          exact staged_decomp _ _ _ ownerId pr.data [] db (Or.inl rfl)

/-! ## C1 — idempotence of the cleaner -/

/-- The string-trimming pass is idempotent on values. -/
theorem trimStep_idem (v : JVal) : trimStep (trimStep v) = trimStep v := by
  cases v <;> simp [trimStep, jsTrim_idem]

/-- Dropping whitespace from a whitespace-free list is the identity. -/
theorem dropWhile_no_ws (l : JStr) (h : ∀ c ∈ l, isWs c = false) :
    l.dropWhile isWs = l := by
  cases l with
  | nil => rfl
  | cons a t => simp [List.dropWhile_cons, h a (List.mem_cons_self a t)]

/-- Trimming a whitespace-free string is the identity. -/
theorem jsTrim_no_ws (l : JStr) (h : ∀ c ∈ l, isWs c = false) : jsTrim l = l := by
  unfold jsTrim
  rw [dropWhile_no_ws l h,
      dropWhile_no_ws l.reverse (fun c hc => h c (List.mem_reverse.mp hc)),
      List.reverse_reverse]

/-- Decimal digit characters are not whitespace. -/
theorem isWs_of_digit (c : Char) (h : c.isDigit = true) : isWs c = false := by
  cases hw : isWs c
  · rfl
  · have h2 : c = ' ' ∨ c = '\t' ∨ c = '\n' ∨ c = '\r' := of_decide_eq_true hw
    rcases h2 with h1 | h1 | h1 | h1 <;> (subst h1; exact absurd h (by decide))

/-- `cleanPhoneNumber` outputs only digit characters. -/
theorem cleanPhoneCore_digits (s : JStr) :
    ∀ c ∈ cleanPhoneCore s, c.isDigit = true := by
  intro c hc
  unfold cleanPhoneCore at hc
  dsimp only at hc
  split at hc
  · exact List.of_mem_filter (List.mem_of_mem_drop hc)
  · exact List.of_mem_filter hc

/-- `cleanPhoneNumber` fixes any all-digit string outside the 12-digit
`91`-prefixed shape. -/
theorem cleanPhoneCore_fix (d : JStr) (hdig : ∀ c ∈ d, c.isDigit = true)
    (hno : ¬ (List.isPrefixOf (chars "91") d = true ∧ d.length = 12)) :
    cleanPhoneCore d = d := by
  unfold cleanPhoneCore
  dsimp only
  rw [List.filter_eq_self.mpr hdig, if_neg hno]

/-- `cleanPhoneNumber` is idempotent on its string core. -/
theorem cleanPhoneCore_idem (s : JStr) :
    cleanPhoneCore (cleanPhoneCore s) = cleanPhoneCore s := by
  apply cleanPhoneCore_fix _ (cleanPhoneCore_digits s)
  unfold cleanPhoneCore
  dsimp only
  split
  · rename_i hcond
    intro hc2
    have h2 := hc2.2
    rw [List.length_drop, hcond.2] at h2
    exact absurd h2 (by decide)
  · rename_i hcond
    exact hcond

/-- Lower-casing preserves whitespace-ness of a character. -/
theorem isWs_jsLowerChar (c : Char) : isWs (jsLowerChar c) = isWs c := by
  unfold jsLowerChar
  cases hl : assocLookup lowerPairs c with
  | none => rfl
  | some d =>
    have hm := assocLookup_mem lowerPairs c d hl
    have hall : ∀ p ∈ lowerPairs, isWs p.2 = false ∧ isWs p.1 = false := by decide
    obtain ⟨h2, h1⟩ := hall (c, d) hm
    rw [h2, h1]

/-- Trimming commutes with lower-casing. -/
theorem jsTrim_jsLower (s : JStr) : jsTrim (jsLower s) = jsLower (jsTrim s) := by
  have hfe : (isWs ∘ jsLowerChar) = isWs := funext isWs_jsLowerChar
  unfold jsTrim jsLower
  rw [List.dropWhile_map, hfe, ← List.map_reverse, List.dropWhile_map, hfe,
      ← List.map_reverse]

/-- The email normalisation (lower-case then trim) is idempotent. -/
theorem emailFix (s : JStr) :
    jsTrim (jsLower (jsTrim (jsLower s))) = jsTrim (jsLower s) := by
  rw [← jsTrim_jsLower, jsLower_idem, jsTrim_idem]

/-- Non-enum keys have no alias table. -/
theorem enumTableFor_none (k : JStr)
    (h1 : k ≠ chars "city") (h2 : k ≠ chars "propertyType") (h3 : k ≠ chars "bhk")
    (h4 : k ≠ chars "purpose") (h5 : k ≠ chars "timeline") (h6 : k ≠ chars "source")
    (h7 : k ≠ chars "status") : enumTableFor k = none := by
  unfold enumTableFor enumTables
  simp only [assocLookup]
  rw [if_neg (fun hc => h1 hc.symm), if_neg (fun hc => h2 hc.symm),
      if_neg (fun hc => h3 hc.symm), if_neg (fun hc => h4 hc.symm),
      if_neg (fun hc => h5 hc.symm), if_neg (fun hc => h6 hc.symm),
      if_neg (fun hc => h7 hc.symm)]

open JVal

/-- On a key with no dedicated cleaner the per-entry pass only trims. -/
theorem cleanEntryPre_generic (k : JStr) (v : JVal)
    (hk1 : k ≠ chars "phone") (hk2 : k ≠ chars "email") (hk3 : k ≠ chars "budgetMin")
    (hk4 : k ≠ chars "budgetMax") (hk5 : k ≠ chars "tags")
    (htbl : enumTableFor k = none) :
    cleanEntryPre k v = .ok (trimStep v) := by
  unfold cleanEntryPre
  simp only [bind, Except.bind, pure, Except.pure]
  rw [if_neg (fun hc => hk1 hc.1), if_neg (fun hc => hk2 hc.1),
      if_neg (fun hc => (hc.1.elim hk3 hk4)), if_neg (fun hc => hk5 hc.1), htbl]

/-- The per-entry pass fixes an all-digit phone value already in
`cleanPhoneNumber`-normal form. -/
theorem cleanEntryPre_phone_digits (d : JStr) (hd : ∀ c ∈ d, c.isDigit = true)
    (hfix : cleanPhoneCore d = d) :
    cleanEntryPre (chars "phone") (vStr d) = .ok (vStr d) := by
  have htr : trimStep (vStr d) = vStr d := by
    show vStr (jsTrim d) = vStr d
    rw [jsTrim_no_ws d (fun c hc => isWs_of_digit c (hd c hc))]
  unfold cleanEntryPre
  simp only [show (chars "phone" = chars "email") = False from eq_false (by decide),
             show (chars "phone" = chars "budgetMin") = False from eq_false (by decide),
             show (chars "phone" = chars "budgetMax") = False from eq_false (by decide),
             show (chars "phone" = chars "tags") = False from eq_false (by decide),
             false_and, false_or, if_false, true_and,
             show enumTableFor (chars "phone") = none from rfl]
  simp only [bind, Except.bind, pure, Except.pure]
  rw [htr]
  by_cases ht : truthy (vStr d) = true
  · rw [if_pos ht]
    unfold cleanPhoneNumberJ
    rw [if_neg (not_not_intro ht)]
    dsimp only
    rw [hfix]
  · rw [if_neg ht]

/-- Re-cleaning any successfully cleaned `phone` value is the identity. -/
theorem cleanEntryPre_phone_inv (v0 w : JVal)
    (h : cleanEntryPre (chars "phone") v0 = .ok w) :
    cleanEntryPre (chars "phone") w = .ok w := by
  unfold cleanEntryPre at h
  simp only [show (chars "phone" = chars "email") = False from eq_false (by decide),
             show (chars "phone" = chars "budgetMin") = False from eq_false (by decide),
             show (chars "phone" = chars "budgetMax") = False from eq_false (by decide),
             show (chars "phone" = chars "tags") = False from eq_false (by decide),
             false_and, false_or, if_false, true_and,
             show enumTableFor (chars "phone") = none from rfl] at h
  simp only [bind, Except.bind, pure, Except.pure] at h
  split at h
  · rename_i hcond
    split at h
    · exact absurd h (by simp)
    · rename_i v1 heq
      injection h with hw
      unfold cleanPhoneNumberJ at heq
      rw [if_neg (not_not_intro hcond)] at heq
      split at heq
      · rename_i s hs
        injection heq with hv1
        rw [← hw, ← hv1]
        exact cleanEntryPre_phone_digits (cleanPhoneCore s) (cleanPhoneCore_digits s)
          (cleanPhoneCore_idem s)
      all_goals exact absurd heq (by simp)
  · rename_i hcond
    injection h with hw
    have htv : truthy (trimStep v0) = false := by
      cases htv2 : truthy (trimStep v0)
      · rfl
      · exact absurd htv2 hcond
    rw [← hw]
    exact cleanEntryPre_falsy (chars "phone") (trimStep v0) htv (trimStep_idem v0)

/-- The per-entry pass fixes an email value in lower-trim normal form. -/
theorem cleanEntryPre_email_lowtrim (s : JStr) :
    cleanEntryPre (chars "email") (vStr (jsTrim (jsLower s)))
      = .ok (vStr (jsTrim (jsLower s))) := by
  have htr : trimStep (vStr (jsTrim (jsLower s))) = vStr (jsTrim (jsLower s)) := by
    show vStr (jsTrim (jsTrim (jsLower s))) = vStr (jsTrim (jsLower s))
    rw [jsTrim_idem]
  unfold cleanEntryPre
  simp only [show (chars "email" = chars "phone") = False from eq_false (by decide),
             show (chars "email" = chars "budgetMin") = False from eq_false (by decide),
             show (chars "email" = chars "budgetMax") = False from eq_false (by decide),
             show (chars "email" = chars "tags") = False from eq_false (by decide),
             false_and, false_or, if_false, true_and,
             show enumTableFor (chars "email") = none from rfl]
  simp only [bind, Except.bind, pure, Except.pure]
  rw [htr]
  by_cases ht : truthy (vStr (jsTrim (jsLower s))) = true
  · rw [if_pos ht]
    unfold cleanEmailJ
    rw [if_neg (not_not_intro ht)]
    dsimp only
    rw [emailFix]
    rw [if_neg (show ¬ (vStr (jsTrim (jsLower s)) = vStr []) from fun hc => by
      injection hc with hc2
      rw [hc2] at ht
      exact absurd ht (by decide))]
  · rw [if_neg ht]

/-- Re-cleaning any successfully cleaned `email` value is the identity. -/
theorem cleanEntryPre_email_inv (v0 w : JVal)
    (h : cleanEntryPre (chars "email") v0 = .ok w) :
    cleanEntryPre (chars "email") w = .ok w := by
  unfold cleanEntryPre at h
  simp only [show (chars "email" = chars "phone") = False from eq_false (by decide),
             show (chars "email" = chars "budgetMin") = False from eq_false (by decide),
             show (chars "email" = chars "budgetMax") = False from eq_false (by decide),
             show (chars "email" = chars "tags") = False from eq_false (by decide),
             false_and, false_or, if_false, true_and,
             show enumTableFor (chars "email") = none from rfl] at h
  simp only [bind, Except.bind, pure, Except.pure] at h
  split at h
  · rename_i hcond
    split at h
    · exact absurd h (by simp)
    · rename_i e1 heq
      injection h with hw
      unfold cleanEmailJ at heq
      rw [if_neg (not_not_intro hcond)] at heq
      split at heq
      · rename_i s hs
        injection heq with he1
        rw [← hw, ← he1]
        by_cases hz : vStr (jsTrim (jsLower s)) = vStr []
        · rw [if_pos hz]
          exact cleanEntryPre_falsy (chars "email") vNull rfl rfl
        · rw [if_neg hz]
          exact cleanEntryPre_email_lowtrim s
      all_goals exact absurd heq (by simp)
  · rename_i hcond
    injection h with hw
    have htv : truthy (trimStep v0) = false := by
      cases htv2 : truthy (trimStep v0)
      · rfl
      · exact absurd htv2 hcond
    rw [← hw]
    exact cleanEntryPre_falsy (chars "email") (trimStep v0) htv (trimStep_idem v0)

/-- `cleanBudget` only returns `undefined` or a number. -/
theorem cleanBudgetJ_shapes (v b : JVal) (h : cleanBudgetJ v = .ok b) :
    b = vUndef ∨ ∃ q, b = vNum q := by
  unfold cleanBudgetJ at h
  repeat' (first | split at h | dsimp only at h)
  all_goals
    first
    | (injection h with h1; exact Or.inl h1.symm)
    | (injection h with h1; exact Or.inr ⟨_, h1.symm⟩)
    | (injection h)

/-- `cleanTags` only returns arrays. -/
theorem cleanTagsJ_shapes (v b : JVal) (h : cleanTagsJ v = .ok b) :
    ∃ l, b = vArr l := by
  unfold cleanTagsJ at h
  repeat' (first | split at h | dsimp only at h)
  all_goals
    first
    | (injection h with h1; exact ⟨_, h1.symm⟩)
    | (injection h)

/-- Re-cleaning a cleaned budget value is the identity when the cleaned
value is second-clean-safe (i.e. not a nonzero number). -/
theorem cleanEntryPre_budget_core (k : JStr) (v0 w : JVal)
    (hk1 : k ≠ chars "phone") (hk2 : k ≠ chars "email") (hk5 : k ≠ chars "tags")
    (htbl : enumTableFor k = none)
    (hbud : k = chars "budgetMin" ∨ k = chars "budgetMax")
    (h : cleanEntryPre k v0 = .ok w) (hsafe : secondCleanSafe w = true) :
    cleanEntryPre k w = .ok w := by
  unfold cleanEntryPre at h
  simp only [eq_false hk1, eq_false hk2, eq_false hk5, eq_true hbud,
             false_and, false_or, if_false, true_and, htbl] at h
  simp only [bind, Except.bind, pure, Except.pure] at h
  split at h
  · rename_i hcond
    split at h
    · exact absurd h (by simp)
    · rename_i b heq
      injection h with hw
      rcases cleanBudgetJ_shapes _ _ heq with hb | ⟨q, hb⟩
      · rw [← hw, hb]
        exact cleanEntryPre_falsy k vUndef rfl rfl
      · rw [hb] at hw
        rw [← hw] at hsafe ⊢
        have hq : q = 0 := of_decide_eq_true hsafe
        subst hq
        exact cleanEntryPre_falsy k (vNum 0) (by decide) rfl
  · rename_i hcond
    injection h with hw
    have htv : truthy (trimStep v0) = false := by
      cases htv2 : truthy (trimStep v0)
      · rfl
      · exact absurd htv2 hcond
    rw [← hw]
    exact cleanEntryPre_falsy k (trimStep v0) htv (trimStep_idem v0)

/-- Re-cleaning a cleaned `tags` value is the identity when the cleaned
value is second-clean-safe (which rules out the array case). -/
theorem cleanEntryPre_tags_inv (v0 w : JVal)
    (h : cleanEntryPre (chars "tags") v0 = .ok w) (hsafe : secondCleanSafe w = true) :
    cleanEntryPre (chars "tags") w = .ok w := by
  unfold cleanEntryPre at h
  simp only [show (chars "tags" = chars "phone") = False from eq_false (by decide),
             show (chars "tags" = chars "email") = False from eq_false (by decide),
             show (chars "tags" = chars "budgetMin") = False from eq_false (by decide),
             show (chars "tags" = chars "budgetMax") = False from eq_false (by decide),
             false_and, false_or, if_false, true_and,
             show enumTableFor (chars "tags") = none from rfl] at h
  simp only [bind, Except.bind, pure, Except.pure] at h
  split at h
  · rename_i hcond
    split at h
    · exact absurd h (by simp)
    · rename_i b heq
      injection h with hw
      obtain ⟨l, hb⟩ := cleanTagsJ_shapes _ _ heq
      rw [hb] at hw
      rw [← hw] at hsafe
      exact absurd hsafe (by simp [secondCleanSafe])
  · rename_i hcond
    injection h with hw
    have htv : truthy (trimStep v0) = false := by
      cases htv2 : truthy (trimStep v0)
      · rfl
      · exact absurd htv2 hcond
    rw [← hw]
    exact cleanEntryPre_falsy (chars "tags") (trimStep v0) htv (trimStep_idem v0)

/-- The per-entry pass fixes a canonical enum-table value. -/
theorem cleanEntryPre_enum_value (k : JStr) (table : List (JStr × JStr)) (m0 : JStr)
    (hk1 : k ≠ chars "phone") (hk2 : k ≠ chars "email") (hk3 : k ≠ chars "budgetMin")
    (hk4 : k ≠ chars "budgetMax") (hk5 : k ≠ chars "tags")
    (htbl : enumTableFor k = some table)
    (hmap : mapEnumValueJ table (vStr m0) = .ok (some m0))
    (hfix : jsTrim m0 = m0) :
    cleanEntryPre k (vStr m0) = .ok (vStr m0) := by
  have htr : trimStep (vStr m0) = vStr m0 := by
    show vStr (jsTrim m0) = vStr m0
    rw [hfix]
  unfold cleanEntryPre
  simp only [eq_false hk1, eq_false hk2, eq_false hk3, eq_false hk4, eq_false hk5,
             false_and, false_or, if_false, htbl]
  simp only [bind, Except.bind, pure, Except.pure]
  rw [htr]
  by_cases ht : truthy (vStr m0) = true
  · rw [if_pos ht, hmap]
  · rw [if_neg ht]

/-- The per-entry pass fixes a trimmed enum value that the alias table does
not map. -/
theorem cleanEntryPre_enum_unmapped (k : JStr) (table : List (JStr × JStr)) (s : JStr)
    (hk1 : k ≠ chars "phone") (hk2 : k ≠ chars "email") (hk3 : k ≠ chars "budgetMin")
    (hk4 : k ≠ chars "budgetMax") (hk5 : k ≠ chars "tags")
    (htbl : enumTableFor k = some table)
    (hfix : jsTrim s = s)
    (hlook : assocLookup table (jsTrim (jsLower s)) = none)
    (hfind : table.find? (fun p => containsSub (jsTrim (jsLower s)) p.1
        || containsSub p.1 (jsTrim (jsLower s))) = none) :
    cleanEntryPre k (vStr s) = .ok (vStr s) := by
  have htr : trimStep (vStr s) = vStr s := by
    show vStr (jsTrim s) = vStr s
    rw [hfix]
  unfold cleanEntryPre
  simp only [eq_false hk1, eq_false hk2, eq_false hk3, eq_false hk4, eq_false hk5,
             false_and, false_or, if_false, htbl]
  simp only [bind, Except.bind, pure, Except.pure]
  rw [htr]
  by_cases ht : truthy (vStr s) = true
  · rw [if_pos ht]
    unfold mapEnumValueJ
    rw [if_neg (not_not_intro ht)]
    dsimp only
    rw [if_neg (show ¬ ((jsTrim s).isEmpty = true) from by
      rw [hfix]
      intro hc
      rw [List.isEmpty_iff.mp hc] at ht
      exact absurd ht (by decide))]
    rw [hlook, hfind]
  · rw [if_neg ht]

/-- Re-cleaning any successfully cleaned enum-field value is the identity. -/
theorem cleanEntryPre_enum_core (k : JStr) (table : List (JStr × JStr)) (v0 w : JVal)
    (hk1 : k ≠ chars "phone") (hk2 : k ≠ chars "email") (hk3 : k ≠ chars "budgetMin")
    (hk4 : k ≠ chars "budgetMax") (hk5 : k ≠ chars "tags")
    (htbl : enumTableFor k = some table)
    (htf : ∀ p ∈ table, mapEnumValueJ table (vStr p.2) = .ok (some p.2) ∧ jsTrim p.2 = p.2)
    (h : cleanEntryPre k v0 = .ok w) :
    cleanEntryPre k w = .ok w := by
  unfold cleanEntryPre at h
  simp only [eq_false hk1, eq_false hk2, eq_false hk3, eq_false hk4, eq_false hk5,
             false_and, false_or, if_false, htbl] at h
  simp only [bind, Except.bind, pure, Except.pure] at h
  split at h
  · rename_i hcond
    split at h
    · exact absurd h (by simp)
    · rename_i m heq
      injection h with hw
      have hsfix : ∀ s2 : JStr, trimStep v0 = vStr s2 → jsTrim s2 = s2 := by
        intro s2 hs2
        cases v0 with
        | vStr s0 =>
          injection hs2 with hs3
          rw [← hs3]
          exact jsTrim_idem s0
        | vNum q => exact absurd hs2 (by simp [trimStep])
        | vNull => exact absurd hs2 (by simp [trimStep])
        | vUndef => exact absurd hs2 (by simp [trimStep])
        | vArr l => exact absurd hs2 (by simp [trimStep])
      unfold mapEnumValueJ at heq
      rw [if_neg (not_not_intro hcond)] at heq
      split at heq
      · rename_i s hs
        have hfix := hsfix s hs
        rw [hs] at hcond
        split at heq
        · rename_i hemp
          rw [hfix] at hemp
          rw [List.isEmpty_iff.mp hemp] at hcond
          exact absurd hcond (by decide)
        · dsimp only at heq
          split at heq
          · rename_i m0 hlook
            injection heq with hm
            rw [← hw, ← hm]
            dsimp only
            have hmem := assocLookup_mem table (jsTrim (jsLower s)) m0 hlook
            obtain ⟨hmap, hvfix⟩ := htf _ hmem
            exact cleanEntryPre_enum_value k table m0 hk1 hk2 hk3 hk4 hk5 htbl hmap hvfix
          · rename_i hlook
            split at heq
            · rename_i p hfind
              injection heq with hm
              rw [← hw, ← hm]
              dsimp only
              have hmem := List.mem_of_find?_eq_some hfind
              obtain ⟨hmap, hvfix⟩ := htf _ hmem
              exact cleanEntryPre_enum_value k table p.2 hk1 hk2 hk3 hk4 hk5 htbl hmap hvfix
            · rename_i hfind
              injection heq with hm
              rw [← hw, ← hm]
              dsimp only
              rw [hs]
              exact cleanEntryPre_enum_unmapped k table s hk1 hk2 hk3 hk4 hk5 htbl hfix
                hlook hfind
      all_goals exact absurd heq (by simp)
  · rename_i hcond
    injection h with hw
    have htv : truthy (trimStep v0) = false := by
      cases htv2 : truthy (trimStep v0)
      · rfl
      · exact absurd htv2 hcond
    rw [← hw]
    exact cleanEntryPre_falsy k (trimStep v0) htv (trimStep_idem v0)

/-- Any second-clean-safe output of the per-entry cleaning is one of its
fixed points. -/
theorem cleanEntryPre_fix (k : JStr) (v0 w : JVal)
    (h : cleanEntryPre k v0 = .ok w) (hsafe : secondCleanSafe w = true) :
    cleanEntryPre k w = .ok w := by
  by_cases h1 : k = chars "phone"
  · subst h1
    exact cleanEntryPre_phone_inv v0 w h
  by_cases h2 : k = chars "email"
  · subst h2
    exact cleanEntryPre_email_inv v0 w h
  by_cases h3 : k = chars "budgetMin"
  · exact cleanEntryPre_budget_core k v0 w h1 h2
      (fun hc => by rw [h3] at hc; exact absurd hc (by decide))
      (by rw [h3]; rfl) (Or.inl h3) h hsafe
  by_cases h4 : k = chars "budgetMax"
  · exact cleanEntryPre_budget_core k v0 w h1 h2
      (fun hc => by rw [h4] at hc; exact absurd hc (by decide))
      (by rw [h4]; rfl) (Or.inr h4) h hsafe
  by_cases h5 : k = chars "tags"
  · subst h5
    exact cleanEntryPre_tags_inv v0 w h hsafe
  by_cases e1 : k = chars "city"
  · subst e1
    exact cleanEntryPre_enum_core _ cityMap v0 w (by decide) (by decide) (by decide)
      (by decide) (by decide) rfl (by decide) h
  by_cases e2 : k = chars "propertyType"
  · subst e2
    exact cleanEntryPre_enum_core _ propertyTypeMap v0 w (by decide) (by decide) (by decide)
      (by decide) (by decide) rfl (by decide) h
  by_cases e3 : k = chars "bhk"
  · subst e3
    exact cleanEntryPre_enum_core _ bhkMap v0 w (by decide) (by decide) (by decide)
      (by decide) (by decide) rfl (by decide) h
  by_cases e4 : k = chars "purpose"
  · subst e4
    exact cleanEntryPre_enum_core _ purposeMap v0 w (by decide) (by decide) (by decide)
      (by decide) (by decide) rfl (by decide) h
  by_cases e5 : k = chars "timeline"
  · subst e5
    exact cleanEntryPre_enum_core _ timelineMap v0 w (by decide) (by decide) (by decide)
      (by decide) (by decide) rfl (by decide) h
  by_cases e6 : k = chars "source"
  · subst e6
    exact cleanEntryPre_enum_core _ sourceMap v0 w (by decide) (by decide) (by decide)
      (by decide) (by decide) rfl (by decide) h
  by_cases e7 : k = chars "status"
  · subst e7
    exact cleanEntryPre_enum_core _ statusMap v0 w (by decide) (by decide) (by decide)
      (by decide) (by decide) rfl (by decide) h
  have hg := cleanEntryPre_generic k v0 h1 h2 h3 h4 h5
    (enumTableFor_none k e1 e2 e3 e4 e5 e6 e7)
  rw [hg] at h
  injection h with hw
  rw [← hw, cleanEntryPre_generic k (trimStep v0) h1 h2 h3 h4 h5
    (enumTableFor_none k e1 e2 e3 e4 e5 e6 e7), trimStep_idem]

/-- The final empty-string pass is idempotent. -/
theorem emptyPass_idem (pt : JVal) (k : JStr) (v : JVal) :
    emptyPass pt k (emptyPass pt k v) = emptyPass pt k v := by
  by_cases hv : v = vStr []
  · subst hv
    unfold emptyPass
    rw [if_pos rfl]
    split
    · rw [if_neg (by decide)]
    · split
      · rw [if_neg (by decide)]
      · split
        · split
          · rw [if_neg (by decide)]
          · rfl
        · rfl
  · unfold emptyPass
    rw [if_neg hv, if_neg hv]

/-- Second-clean safety transfers backwards over the empty-string pass. -/
theorem emptyPass_safe_pre (pt : JVal) (k : JStr) (v : JVal)
    (h : secondCleanSafe (emptyPass pt k v) = true) : secondCleanSafe v = true := by
  by_cases hv : v = vStr []
  · subst hv
    rfl
  · unfold emptyPass at h
    rw [if_neg hv] at h
    exact h

/-- The empty-string pass never rewrites `propertyType`. -/
theorem emptyPass_propertyType (pt v : JVal) :
    emptyPass pt (chars "propertyType") v = v := by
  unfold emptyPass
  by_cases hv : v = vStr []
  · rw [if_pos hv, if_neg (by decide), if_neg (by decide), if_neg (by decide), hv]
  · rw [if_neg hv]

/-- On an empty string the empty-string pass yields a falsy, trim-fixed
value. -/
theorem emptyPass_empty (pt : JVal) (k : JStr) :
    truthy (emptyPass pt k (vStr [])) = false
      ∧ trimStep (emptyPass pt k (vStr [])) = emptyPass pt k (vStr []) := by
  unfold emptyPass
  rw [if_pos rfl]
  split
  · exact ⟨rfl, rfl⟩
  · split
    · exact ⟨rfl, rfl⟩
    · split
      · split
        · exact ⟨rfl, rfl⟩
        · exact ⟨rfl, rfl⟩
      · exact ⟨rfl, rfl⟩

/-- The per-entry pass fixes the empty-string-passed image of any of its
successful outputs, when that image is second-clean-safe. -/
theorem cleanEntries_fix (pt : JVal) (R : Row) :
    ∀ pre : Row, cleanEntries R = .ok pre →
    (∀ kv ∈ pre.map (fun kv => (kv.1, emptyPass pt kv.1 kv.2)),
        secondCleanSafe kv.2 = true) →
    cleanEntries (pre.map (fun kv => (kv.1, emptyPass pt kv.1 kv.2)))
      = .ok (pre.map (fun kv => (kv.1, emptyPass pt kv.1 kv.2))) := by
  induction R with
  | nil =>
    intro pre hpre hsafe
    unfold cleanEntries at hpre
    rw [List.mapM_nil] at hpre
    injection hpre with h1
    rw [← h1]
    rfl
  | cons kv rest ih =>
    intro pre hpre hsafe
    obtain ⟨k', v'⟩ := kv
    obtain ⟨w, pre', hw, hrest, rfl⟩ := cleanEntries_cons_inv k' v' rest pre hpre
    simp only [List.map_cons] at hsafe ⊢
    have hsafeHead : secondCleanSafe (emptyPass pt k' w) = true :=
      hsafe _ (List.mem_cons_self _ _)
    have hfixHead : cleanEntryPre k' (emptyPass pt k' w) = .ok (emptyPass pt k' w) := by
      by_cases hw0 : w = vStr []
      · subst hw0
        obtain ⟨h1, h2⟩ := emptyPass_empty pt k'
        exact cleanEntryPre_falsy k' _ h1 h2
      · have hEp : emptyPass pt k' w = w := by
          unfold emptyPass
          rw [if_neg hw0]
        rw [hEp]
        rw [hEp] at hsafeHead
        exact cleanEntryPre_fix k' v' w hw hsafeHead
    have htail := ih pre' hrest (fun kv hkv => hsafe kv (List.mem_cons_of_mem _ hkv))
    unfold cleanEntries
    unfold cleanEntries at htail
    rw [List.mapM_cons]
    simp only [bind, Except.bind, pure, Except.pure] at htail ⊢
    rw [hfixHead, htail]

/-- C1 (corrected): `cleanRowData` is idempotent exactly on the safe part of
its image — for every row `R` with `cleanRowData R = C`, if no value of `C`
is an array and no value is a nonzero number, then `cleanRowData C = C`.
The spec's unconditional claim fails: cleaned rows whose `tags` became an
array or whose budgets became nonzero numbers make the second clean throw
(see the counterexample). -/
theorem c1_amended (R C : Row) (h : cleanRowDataJ R = .ok C)
    (hsafe : ∀ kv ∈ C, secondCleanSafe kv.2 = true) :
    cleanRowDataJ C = .ok C := by
  obtain ⟨pre, hpre, hC⟩ := cleanRowDataJ_ok_inv R C h
  have hEnt : cleanEntries C = .ok C := by
    rw [hC]
    exact cleanEntries_fix _ R pre hpre (by rw [← hC]; exact hsafe)
  have hpt : jget C (chars "propertyType") = jget pre (chars "propertyType") := by
    rw [hC, jget_mapVals]
    cases hl : assocLookup pre (chars "propertyType") with
    | some w2 =>
      dsimp only
      rw [emptyPass_propertyType]
      unfold jget
      rw [hl]
      rfl
    | none =>
      dsimp only
      unfold jget
      rw [hl]
      rfl
  unfold cleanRowDataJ
  simp only [bind, Except.bind, pure, Except.pure]
  rw [hEnt]
  dsimp only
  rw [hpt]
  rw [hC, List.map_map]
  have hcomp : ((fun kv : JStr × JVal =>
        (kv.1, emptyPass (jget pre (chars "propertyType")) kv.1 kv.2))
      ∘ (fun kv : JStr × JVal =>
        (kv.1, emptyPass (jget pre (chars "propertyType")) kv.1 kv.2)))
      = (fun kv : JStr × JVal =>
        (kv.1, emptyPass (jget pre (chars "propertyType")) kv.1 kv.2)) := by
    funext kv
    show (kv.1, emptyPass _ kv.1 (emptyPass _ kv.1 kv.2)) = _
    rw [emptyPass_idem]
  rw [hcomp]

/-- C1 (corrected, counterexample): cleaning the row `{tags: "a"}` succeeds
and turns `tags` into an array, but cleaning the cleaned row throws
`tags.trim is not a function` — so clean∘clean ≠ clean, and clean is not
defined on outputs in which `tags` has become an array. -/
theorem c1_counterexample :
    cleanRowDataJ c1Row = .ok [(chars "tags", vArr [chars "a"])]
    ∧ cleanRowDataJ [(chars "tags", vArr [chars "a"])]
        = .error (chars "tags.trim is not a function") := by decide

/-- C1 witness: the amended idempotence instantiated on a concrete row. -/
theorem c1_amended_witness :
    cleanRowDataJ [(chars "fullName", vStr (chars " Ann "))]
        = .ok [(chars "fullName", vStr (chars "Ann"))]
    ∧ (∀ kv ∈ [(chars "fullName", vStr (chars "Ann"))], secondCleanSafe kv.2 = true)
    ∧ cleanRowDataJ [(chars "fullName", vStr (chars "Ann"))]
        = .ok [(chars "fullName", vStr (chars "Ann"))] :=
  ⟨by decide, by decide,
   c1_amended [(chars "fullName", vStr (chars " Ann "))]
     [(chars "fullName", vStr (chars "Ann"))] (by decide) (by decide)⟩

end BuyLead

